import Mathlib

/-!
Verification development for the DirectoryBolt submission mapper & monitor
toolkit (`directories/submission_monitor_toolkit/submission_mapper_monitor.py`).

The Python source is shallowly embedded: pure helpers become Lean functions,
the per-target orchestration becomes an explicit state-passing step function,
and the browser is abstracted into an explicit capture-outcome datatype.
Machine-word arithmetic (SHA-256) is modelled on `Nat` with explicit
`% 2^32` reductions.  Character-level string functions (`str.lower`,
`str.isalnum`) are modelled over the ASCII range, which covers every literal
manipulated by the toolkit.
-/

set_option maxRecDepth 16000

/-! ## SHA-256 (`hashlib.sha256(payload.encode("utf-8")).hexdigest()`) -/

/-- Reduce a natural number modulo `2^32`, the word size of SHA-256. -/
def m32 (x : Nat) : Nat := x % 4294967296

/-- Rotate a 32-bit word right by `n` bits. -/
def rotr32 (x n : Nat) : Nat := m32 (Nat.shiftRight x n ||| Nat.shiftLeft x (32 - n))

/-- Logical right shift of a 32-bit word. -/
def shr32 (x n : Nat) : Nat := Nat.shiftRight x n

/-- Bitwise complement of a 32-bit word. -/
def not32 (x : Nat) : Nat := Nat.xor x 4294967295

/-- SHA-256 small sigma 0. -/
def sSig0 (x : Nat) : Nat := Nat.xor (Nat.xor (rotr32 x 7) (rotr32 x 18)) (shr32 x 3)

/-- SHA-256 small sigma 1. -/
def sSig1 (x : Nat) : Nat := Nat.xor (Nat.xor (rotr32 x 17) (rotr32 x 19)) (shr32 x 10)

/-- SHA-256 big sigma 0. -/
def bSig0 (x : Nat) : Nat := Nat.xor (Nat.xor (rotr32 x 2) (rotr32 x 13)) (rotr32 x 22)

/-- SHA-256 big sigma 1. -/
def bSig1 (x : Nat) : Nat := Nat.xor (Nat.xor (rotr32 x 6) (rotr32 x 11)) (rotr32 x 25)

/-- SHA-256 choose function. -/
def chFn (x y z : Nat) : Nat := Nat.xor (Nat.land x y) (Nat.land (not32 x) z)

/-- SHA-256 majority function. -/
def majFn (x y z : Nat) : Nat := Nat.xor (Nat.xor (Nat.land x y) (Nat.land x z)) (Nat.land y z)

/-- The 64 SHA-256 round constants. -/
def sha256K : List Nat :=
  [1116352408, 1899447441, 3049323471, 3921009573, 961987163, 1508970993,
   2453635748, 2870763221, 3624381080, 310598401, 607225278, 1426881987,
   1925078388, 2162078206, 2614888103, 3248222580, 3835390401, 4022224774,
   264347078, 604807628, 770255983, 1249150122, 1555081692, 1996064986,
   2554220882, 2821834349, 2952996808, 3210313671, 3336571891, 3584528711,
   113926993, 338241895, 666307205, 773529912, 1294757372, 1396182291,
   1695183700, 1986661051, 2177026350, 2456956037, 2730485921, 2820302411,
   3259730800, 3345764771, 3516065817, 3600352804, 4094571909, 275423344,
   430227734, 506948616, 659060556, 883997877, 958139571, 1322822218,
   1537002063, 1747873779, 1955562222, 2024104815, 2227730452, 2361852424,
   2428436474, 2756734187, 3204031479, 3329325298]

/-- The eight 32-bit working registers of the SHA-256 state. -/
structure H8 where
  a : Nat
  b : Nat
  c : Nat
  d : Nat
  e : Nat
  f : Nat
  g : Nat
  hh : Nat
deriving DecidableEq

/-- The SHA-256 initial hash value. -/
def sha256Init : H8 :=
  ⟨1779033703, 3144134277, 1013904242, 2773480762,
   1359893119, 2600822924, 528734635, 1541459225⟩

/-- One SHA-256 compression round, consuming a round constant and a schedule word. -/
def sha256Step (st : H8) (kw : Nat × Nat) : H8 :=
  let t1 := m32 (st.hh + bSig1 st.e + chFn st.e st.f st.g + kw.1 + kw.2)
  let t2 := m32 (bSig0 st.a + majFn st.a st.b st.c)
  ⟨m32 (t1 + t2), st.a, st.b, st.c, m32 (st.d + t1), st.e, st.f, st.g⟩

/-- Extend the 16-word message block to the 64-word message schedule. -/
def extendW : Nat → List Nat → List Nat
  | 0, acc => acc
  | n + 1, acc =>
    let len := acc.length
    let w2 := acc.getD (len - 2) 0
    let w7 := acc.getD (len - 7) 0
    let w15 := acc.getD (len - 15) 0
    let w16 := acc.getD (len - 16) 0
    extendW n (acc ++ [m32 (sSig1 w2 + w7 + sSig0 w15 + w16)])

/-- Group a byte list into big-endian 32-bit words. -/
def bytesToWords : List Nat → List Nat
  | b0 :: b1 :: b2 :: b3 :: rest => (((b0 * 256 + b1) * 256 + b2) * 256 + b3) :: bytesToWords rest
  | _ => []

/-- Compress one 64-byte block into the running hash state. -/
def sha256Compress (st : H8) (block : List Nat) : H8 :=
  let ws := extendW 48 (bytesToWords block)
  let r := (sha256K.zip ws).foldl sha256Step st
  ⟨m32 (st.a + r.a), m32 (st.b + r.b), m32 (st.c + r.c), m32 (st.d + r.d),
   m32 (st.e + r.e), m32 (st.f + r.f), m32 (st.g + r.g), m32 (st.hh + r.hh)⟩

/-- Split a byte list into 64-byte blocks; the fuel argument bounds the recursion. -/
def sha256Chunks : Nat → List Nat → List (List Nat)
  | 0, _ => []
  | _ + 1, [] => []
  | fuel + 1, bytes => bytes.take 64 :: sha256Chunks fuel (bytes.drop 64)

/-- Big-endian byte rendering of a number, `n` bytes wide. -/
def toBytesBE : Nat → Nat → List Nat
  | 0, _ => []
  | n + 1, v => toBytesBE n (v / 256) ++ [v % 256]

/-- SHA-256 message padding: a 1 bit, zeros to 56 mod 64, and the 64-bit bit length. -/
def sha256Pad (bytes : List Nat) : List Nat :=
  let len := bytes.length
  let z := (119 - len % 64) % 64
  bytes ++ (128 :: List.replicate z 0) ++ toBytesBE 8 (8 * len)

/-- Lowercase hexadecimal digit for a value below 16. -/
def hexDigit (n : Nat) : Char :=
  if n < 10 then Char.ofNat (48 + n) else Char.ofNat (87 + n)

/-- Lowercase hexadecimal rendering of a word, `n` digits wide. -/
def wordHex : Nat → Nat → List Char
  | 0, _ => []
  | n + 1, v => wordHex n (v / 16) ++ [hexDigit (v % 16)]

/-- SHA-256 of a byte list, rendered as the usual 64-character lowercase hex digest. -/
def sha256Bytes (bytes : List Nat) : String :=
  let padded := sha256Pad bytes
  let st := (sha256Chunks (padded.length + 1) padded).foldl sha256Compress sha256Init
  ⟨[st.a, st.b, st.c, st.d, st.e, st.f, st.g, st.hh].flatMap (wordHex 8)⟩

/-- UTF-8 encoding of a string as a byte list (Python `str.encode("utf-8")`). -/
def utf8Bytes (s : String) : List Nat :=
  s.data.flatMap fun c =>
    let n := c.toNat
    if n < 128 then [n]
    else if n < 2048 then [192 + n / 64, 128 + n % 64]
    else if n < 65536 then [224 + n / 4096, 128 + (n / 64) % 64, 128 + n % 64]
    else [240 + n / 262144, 128 + (n / 4096) % 64, 128 + (n / 64) % 64, 128 + n % 64]

/-- Embedding of `sha256_text`: SHA-256 hex digest of the UTF-8 encoding of a string. -/
def sha256_text (s : String) : String := sha256Bytes (utf8Bytes s)

/-- Sanity anchor for the SHA-256 embedding: the standard `abc` test vector. -/
theorem sha256_text_abc :
    sha256_text "abc" = "ba7816bf8f01cfea414140de5dae2223b00361a396177a9cb410ff61f20015ad" := by
  decide

/-! ## The site-id sanitizer (`sanitize_site_id`) -/

/-- Model of Python `str.lower` on one character, over the ASCII range. -/
def pyLower (c : Char) : Char :=
  if 65 ≤ c.toNat ∧ c.toNat ≤ 90 then Char.ofNat (c.toNat + 32) else c

/-- The character predicate of the sanitizer comprehension:
`ch.isalnum() or ch in ("-", "_")`, with `isalnum` modelled over ASCII. -/
def keepChar (c : Char) : Bool :=
  c.isAlpha || c.isDigit || c == '-' || c == '_'

/-- Membership in the strip set of `value.strip("-_")`. -/
def isStripChar (c : Char) : Bool :=
  c == '-' || c == '_'

/-- Python `value.strip("-_")` on a character list. -/
def stripBoth (l : List Char) : List Char :=
  (((l.dropWhile isStripChar).reverse.dropWhile isStripChar)).reverse

/-- One pass of `value.replace("--", "-")`: non-overlapping, left to right. -/
def replaceDD : List Char → List Char
  | [] => []
  | [c] => [c]
  | c :: d :: rest =>
    if c = '-' ∧ d = '-' then '-' :: replaceDD rest else c :: replaceDD (d :: rest)

/-- Test of `"--" in value` on a character list. -/
def hasDD : List Char → Bool
  | [] => false
  | [_] => false
  | c :: d :: rest => (c = '-' && d = '-') || hasDD (d :: rest)

/-- The `while "--" in value` loop of the sanitizer; the fuel argument bounds the
iteration count, and `replaceDD` strictly shrinks the list whenever `hasDD` holds,
so fuel equal to the list length always reaches the loop fixpoint. -/
def collapseLoop : Nat → List Char → List Char
  | 0, l => l
  | fuel + 1, l => if hasDD l then collapseLoop fuel (replaceDD l) else l

/-- First stage of the sanitizer comprehension: lowercase the raw value and map
every non-kept character to `-`. -/
def mapStage (raw : String) : List Char :=
  (raw.data.map pyLower).map fun c => if keepChar c then c else '-'

/-- Second stage: `value.strip("-_")`. -/
def strippedStage (raw : String) : List Char :=
  stripBoth (mapStage raw)

/-- Third stage: the `while "--" in value` collapse loop run to its fixpoint. -/
def collapsedStage (raw : String) : List Char :=
  collapseLoop (strippedStage raw).length (strippedStage raw)

/-- Embedding of `sanitize_site_id`: lowercase, map non-kept characters to `-`,
strip `-`/`_` from both ends, collapse `--` runs, and fall back to `"site"`
when the result is empty (`return value or "site"`). -/
def sanitize_site_id (raw : String) : String :=
  if (collapsedStage raw).isEmpty then "site" else ⟨collapsedStage raw⟩

/-- Sanity anchor for the sanitizer embedding: the example from the spec. -/
theorem sanitize_acme : sanitize_site_id "Acme Co!" = "acme-co" := by decide

/-! ## Sanitizer lemmas -/

/-- The ASCII lowering map is idempotent. -/
theorem pyLower_pyLower (c : Char) : pyLower (pyLower c) = pyLower c := by
  unfold pyLower
  by_cases h : 65 ≤ c.toNat ∧ c.toNat ≤ 90
  · rw [if_pos h]
    obtain ⟨h1, h2⟩ := h
    generalize c.toNat = n at h1 h2
    interval_cases n <;> decide
  · rw [if_neg h, if_neg h]

/-- Every character emitted by the map stage of the sanitizer is a fixpoint of
lowering and satisfies the keep predicate. -/
theorem mapStage_char (c : Char) :
    pyLower (if keepChar (pyLower c) then pyLower c else '-') =
      (if keepChar (pyLower c) then pyLower c else '-') ∧
    keepChar (if keepChar (pyLower c) then pyLower c else '-') = true := by
  by_cases h : keepChar (pyLower c) = true
  · rw [if_pos h]
    exact ⟨pyLower_pyLower c, h⟩
  · rw [if_neg h]
    exact ⟨by decide, by decide⟩

/-- Characters of `replaceDD l` all come from `l`. -/
theorem replaceDD_mem : ∀ l : List Char, ∀ c ∈ replaceDD l, c ∈ l := by
  intro l
  induction l using replaceDD.induct with
  | case1 => intro c hc; exact absurd hc (by simp [replaceDD])
  | case2 c0 => intro c hc; simpa [replaceDD] using hc
  | case3 c0 d rest hdd ih =>
    intro c hc
    rw [replaceDD, if_pos hdd] at hc
    rcases List.mem_cons.mp hc with h | h
    · subst h; rw [hdd.1]; exact List.mem_cons_self _ _
    · exact List.mem_cons_of_mem _ (List.mem_cons_of_mem _ (ih c h))
  | case4 c0 d rest hdd ih =>
    intro c hc
    rw [replaceDD, if_neg hdd] at hc
    rcases List.mem_cons.mp hc with h | h
    · simp [h]
    · exact List.mem_cons_of_mem _ (ih c h)

/-- The replace pass never lengthens the list. -/
theorem replaceDD_length_le : ∀ l : List Char, (replaceDD l).length ≤ l.length := by
  intro l
  induction l using replaceDD.induct with
  | case1 => simp [replaceDD]
  | case2 c0 => simp [replaceDD]
  | case3 c0 d rest hdd ih => rw [replaceDD, if_pos hdd]; simpa using Nat.le_succ_of_le ih
  | case4 c0 d rest hdd ih => rw [replaceDD, if_neg hdd]; simpa using ih

/-- When a double dash is present, the replace pass strictly shrinks the list. -/
theorem replaceDD_length_lt : ∀ l : List Char, hasDD l = true → (replaceDD l).length < l.length := by
  intro l
  induction l using replaceDD.induct with
  | case1 => intro h; exact absurd h (by simp [hasDD])
  | case2 c0 => intro h; exact absurd h (by simp [hasDD])
  | case3 c0 d rest hdd ih =>
    intro _
    rw [replaceDD, if_pos hdd]
    have := replaceDD_length_le rest
    simp only [List.length_cons]
    omega
  | case4 c0 d rest hdd ih =>
    intro h
    rw [replaceDD, if_neg hdd]
    rw [hasDD] at h
    have hne : (decide (c0 = '-') && decide (d = '-')) = false := by
      by_cases h1 : c0 = '-'
      · by_cases h2 : d = '-'
        · exact absurd ⟨h1, h2⟩ hdd
        · simp [h2]
      · simp [h1]
    rw [hne, Bool.false_or] at h
    have := ih h
    simp only [List.length_cons] at this ⊢
    omega

/-- After enough fuel the collapse loop reaches a state without double dashes. -/
theorem collapseLoop_noDD : ∀ fuel (l : List Char), l.length ≤ fuel →
    hasDD (collapseLoop fuel l) = false := by
  intro fuel
  induction fuel with
  | zero =>
    intro l hl
    have : l = [] := List.length_eq_zero.mp (Nat.le_zero.mp hl)
    subst this
    simp [collapseLoop, hasDD]
  | succ n ih =>
    intro l hl
    rw [collapseLoop]
    by_cases h : hasDD l = true
    · rw [if_pos h]
      exact ih _ (by have := replaceDD_length_lt l h; omega)
    · rw [if_neg h]
      exact Bool.eq_false_iff.mpr h

/-- Without a double dash the collapse loop is the identity. -/
theorem collapseLoop_of_noDD (fuel : Nat) (l : List Char) (h : hasDD l = false) :
    collapseLoop fuel l = l := by
  cases fuel with
  | zero => rfl
  | succ n => rw [collapseLoop, if_neg (by simp [h])]

/-- Characters of the collapse loop output all come from the input. -/
theorem collapseLoop_mem : ∀ fuel (l : List Char), ∀ c ∈ collapseLoop fuel l, c ∈ l := by
  intro fuel
  induction fuel with
  | zero => intro l c hc; simpa [collapseLoop] using hc
  | succ n ih =>
    intro l c hc
    rw [collapseLoop] at hc
    by_cases h : hasDD l = true
    · rw [if_pos h] at hc
      exact replaceDD_mem l c (ih _ c hc)
    · rw [if_neg h] at hc
      exact hc

/-- The replace pass preserves a head character that is not a dash. -/
theorem replaceDD_head : ∀ (l : List Char) (c : Char), l.head? = some c → c ≠ '-' →
    (replaceDD l).head? = some c := by
  intro l
  induction l using replaceDD.induct with
  | case1 => intro c hc _; simp at hc
  | case2 c0 => intro c hc _; simpa [replaceDD] using hc
  | case3 c0 d rest hdd ih =>
    intro c hc hne
    simp only [List.head?_cons, Option.some.injEq] at hc
    exact absurd (hc ▸ hdd.1) hne
  | case4 c0 d rest hdd ih =>
    intro c hc _
    rw [replaceDD, if_neg hdd]
    simpa using hc

/-- The replace pass of a nonempty list is nonempty. -/
theorem replaceDD_ne_nil : ∀ l : List Char, l ≠ [] → replaceDD l ≠ [] := by
  intro l
  induction l using replaceDD.induct with
  | case1 => intro h; exact absurd rfl h
  | case2 c0 => intro _; simp [replaceDD]
  | case3 c0 d rest hdd ih => intro _; rw [replaceDD, if_pos hdd]; simp
  | case4 c0 d rest hdd ih => intro _; rw [replaceDD, if_neg hdd]; simp

/-- The replace pass preserves a last character that is not a dash. -/
theorem replaceDD_last : ∀ (l : List Char) (c : Char), l.getLast? = some c → c ≠ '-' →
    (replaceDD l).getLast? = some c := by
  intro l
  induction l using replaceDD.induct with
  | case1 => intro c hc _; simp at hc
  | case2 c0 => intro c hc _; simpa [replaceDD] using hc
  | case3 c0 d rest hdd ih =>
    intro c hc hne
    rw [replaceDD, if_pos hdd]
    cases rest with
    | nil => simp [hdd.1, hdd.2] at hc; exact absurd hc.symm (by simpa using hne)
    | cons e es =>
      rw [List.getLast?_cons_cons, List.getLast?_cons_cons] at hc
      obtain ⟨x, xs, hx⟩ := List.exists_cons_of_ne_nil (replaceDD_ne_nil (e :: es) (by simp))
      rw [hx, List.getLast?_cons_cons, ← hx]
      exact ih c hc hne
  | case4 c0 d rest hdd ih =>
    intro c hc hne
    rw [replaceDD, if_neg hdd]
    rw [List.getLast?_cons_cons] at hc
    obtain ⟨x, xs, hx⟩ := List.exists_cons_of_ne_nil (replaceDD_ne_nil (d :: rest) (by simp))
    rw [hx, List.getLast?_cons_cons, ← hx]
    exact ih c hc hne

/-- The collapse loop preserves a head character that is not a dash. -/
theorem collapseLoop_head : ∀ fuel (l : List Char) (c : Char), l.head? = some c → c ≠ '-' →
    (collapseLoop fuel l).head? = some c := by
  intro fuel
  induction fuel with
  | zero => intro l c hc _; simpa [collapseLoop] using hc
  | succ n ih =>
    intro l c hc hne
    rw [collapseLoop]
    by_cases h : hasDD l = true
    · rw [if_pos h]
      exact ih _ c (replaceDD_head l c hc hne) hne
    · rw [if_neg h]; exact hc

/-- The collapse loop preserves a last character that is not a dash. -/
theorem collapseLoop_last : ∀ fuel (l : List Char) (c : Char), l.getLast? = some c → c ≠ '-' →
    (collapseLoop fuel l).getLast? = some c := by
  intro fuel
  induction fuel with
  | zero => intro l c hc _; simpa [collapseLoop] using hc
  | succ n ih =>
    intro l c hc hne
    rw [collapseLoop]
    by_cases h : hasDD l = true
    · rw [if_pos h]
      exact ih _ c (replaceDD_last l c hc hne) hne
    · rw [if_neg h]; exact hc

/-- A head character of a dropWhile result never satisfies the dropped predicate. -/
theorem head_dropWhile_not (p : Char → Bool) : ∀ (l : List Char) (c : Char),
    (l.dropWhile p).head? = some c → p c = false := by
  intro l
  induction l with
  | nil => intro c hc; simp [List.dropWhile] at hc
  | cons a l ih =>
    intro c hc
    rw [List.dropWhile_cons] at hc
    by_cases hp : p a = true
    · rw [if_pos hp] at hc; exact ih c hc
    · rw [if_neg hp] at hc
      simp only [List.head?_cons, Option.some.injEq] at hc
      subst hc
      exact Bool.eq_false_iff.mpr hp

/-- A nonempty dropWhile result keeps the last element of the original list. -/
theorem getLast_dropWhile (p : Char → Bool) : ∀ l : List Char, l.dropWhile p ≠ [] →
    (l.dropWhile p).getLast? = l.getLast? := by
  intro l
  induction l with
  | nil => intro h; simp [List.dropWhile] at h
  | cons a l ih =>
    intro h
    rw [List.dropWhile_cons] at h ⊢
    by_cases hp : p a = true
    · rw [if_pos hp] at h ⊢
      have hl : l ≠ [] := by
        intro he; subst he; simp [List.dropWhile] at h
      rw [ih h]
      obtain ⟨x, xs, hx⟩ := List.exists_cons_of_ne_nil hl
      subst hx
      rw [List.getLast?_cons_cons]
    · rw [if_neg hp]

/-- Characters of the stripped list all come from the original list. -/
theorem stripBoth_subset (l : List Char) : ∀ c ∈ stripBoth l, c ∈ l := by
  intro c hc
  unfold stripBoth at hc
  rw [List.mem_reverse] at hc
  have h1 := (List.dropWhile_sublist isStripChar).subset hc
  rw [List.mem_reverse] at h1
  exact (List.dropWhile_sublist isStripChar).subset h1

/-- The last character of a stripped list is outside the strip set. -/
theorem stripBoth_last_not (l : List Char) (c : Char) (h : (stripBoth l).getLast? = some c) :
    isStripChar c = false := by
  unfold stripBoth at h
  rw [List.getLast?_reverse] at h
  exact head_dropWhile_not isStripChar _ c h

/-- The head character of a stripped list is outside the strip set. -/
theorem stripBoth_head_not (l : List Char) (c : Char) (h : (stripBoth l).head? = some c) :
    isStripChar c = false := by
  unfold stripBoth at h
  rw [List.head?_reverse] at h
  have hne : ((l.dropWhile isStripChar).reverse.dropWhile isStripChar) ≠ [] := by
    intro he; rw [he] at h; simp at h
  rw [getLast_dropWhile isStripChar _ hne, List.getLast?_reverse] at h
  exact head_dropWhile_not isStripChar _ c h

/-- dropWhile is the identity when the head does not satisfy the predicate. -/
theorem dropWhile_eq_self_of_head (p : Char → Bool) (l : List Char)
    (h : ∀ c, l.head? = some c → p c = false) : l.dropWhile p = l := by
  cases l with
  | nil => rfl
  | cons a l => rw [List.dropWhile_cons, if_neg (by simp [h a rfl])]

/-- Stripping is the identity when both ends are outside the strip set. -/
theorem stripBoth_eq_self (l : List Char)
    (h1 : ∀ c, l.head? = some c → isStripChar c = false)
    (h2 : ∀ c, l.getLast? = some c → isStripChar c = false) : stripBoth l = l := by
  unfold stripBoth
  rw [dropWhile_eq_self_of_head isStripChar l h1]
  rw [dropWhile_eq_self_of_head isStripChar l.reverse
    (by intro c hc; rw [List.head?_reverse] at hc; exact h2 c hc)]
  exact List.reverse_reverse l

/-- The map stage is the identity on lists of lowered, kept characters. -/
theorem map_fix : ∀ l : List Char, (∀ c ∈ l, pyLower c = c ∧ keepChar c = true) →
    ((l.map pyLower).map fun c => if keepChar c then c else '-') = l := by
  intro l
  induction l with
  | nil => intro _; rfl
  | cons a l ih =>
    intro h
    have ha := h a (List.mem_cons_self a l)
    simp only [List.map_cons]
    rw [ha.1, if_pos ha.2, ih (fun c hc => h c (List.mem_cons_of_mem a hc))]

/-- All characters of the collapsed stage are lowered, kept characters. -/
theorem collapsedStage_mem (raw : String) :
    ∀ c ∈ collapsedStage raw, pyLower c = c ∧ keepChar c = true := by
  intro c hc
  have h1 : c ∈ strippedStage raw := collapseLoop_mem _ _ c hc
  have h2 : c ∈ mapStage raw := stripBoth_subset _ c h1
  unfold mapStage at h2
  obtain ⟨b, hb, hbc⟩ := List.mem_map.mp h2
  obtain ⟨a, _, hab⟩ := List.mem_map.mp hb
  subst hbc
  subst hab
  exact mapStage_char a

/-- The sanitizer output string is a fixpoint of the sanitizer. -/
theorem sanitize_fix (raw : String) (hne : (collapsedStage raw).isEmpty = false) :
    sanitize_site_id ⟨collapsedStage raw⟩ = ⟨collapsedStage raw⟩ := by
  have hcol : collapsedStage raw ≠ [] := by
    intro h; rw [h] at hne; simp at hne
  have hstr : strippedStage raw ≠ [] := by
    intro h
    apply hcol
    unfold collapsedStage
    rw [h]
    rfl
  obtain ⟨e, es, he⟩ := List.exists_cons_of_ne_nil hstr
  have heh : (strippedStage raw).head? = some e := by rw [he]; rfl
  have hens : isStripChar e = false := stripBoth_head_not (mapStage raw) e heh
  have hedash : e ≠ '-' := by
    intro hcontra; rw [hcontra] at hens; simp [isStripChar] at hens
  obtain ⟨g, hg⟩ : ∃ g, (strippedStage raw).getLast? = some g := by
    rw [he]
    obtain ⟨y, hy⟩ := List.getLast?_isSome.mpr (List.cons_ne_nil e es) |> Option.isSome_iff_exists.mp
    exact ⟨y, hy⟩
  have hgns : isStripChar g = false := stripBoth_last_not (mapStage raw) g hg
  have hgdash : g ≠ '-' := by
    intro hcontra; rw [hcontra] at hgns; simp [isStripChar] at hgns
  have hhead : (collapsedStage raw).head? = some e := collapseLoop_head _ _ e heh hedash
  have hlast : (collapsedStage raw).getLast? = some g := collapseLoop_last _ _ g hg hgdash
  have hnoDD : hasDD (collapsedStage raw) = false :=
    collapseLoop_noDD (strippedStage raw).length (strippedStage raw) (le_refl _)
  have hmap : mapStage ⟨collapsedStage raw⟩ = collapsedStage raw :=
    map_fix _ (collapsedStage_mem raw)
  have hstrip : strippedStage ⟨collapsedStage raw⟩ = collapsedStage raw := by
    unfold strippedStage
    rw [hmap]
    refine stripBoth_eq_self _ ?_ ?_
    · intro c hc; rw [hhead] at hc; cases hc; exact hens
    · intro c hc; rw [hlast] at hc; cases hc; exact hgns
  have hfix : collapsedStage ⟨collapsedStage raw⟩ = collapsedStage raw := by
    have hrfl : collapsedStage (⟨collapsedStage raw⟩ : String) =
        collapseLoop (strippedStage ⟨collapsedStage raw⟩).length
          (strippedStage ⟨collapsedStage raw⟩) := rfl
    rw [hrfl, hstrip]
    exact collapseLoop_of_noDD _ _ hnoDD
  unfold sanitize_site_id
  rw [hfix, if_neg (by rw [hne]; simp)]

/-- The sanitizer is idempotent. -/
theorem sanitize_idem (x : String) :
    sanitize_site_id (sanitize_site_id x) = sanitize_site_id x := by
  by_cases h : (collapsedStage x).isEmpty = true
  · have hx : sanitize_site_id x = "site" := by rw [sanitize_site_id, if_pos h]
    rw [hx]
    decide
  · have hb : (collapsedStage x).isEmpty = false := Bool.eq_false_iff.mpr h
    have hx : sanitize_site_id x = ⟨collapsedStage x⟩ := by rw [sanitize_site_id, if_neg h]
    rw [hx]
    exact sanitize_fix x hb

/-- When every character of the input is either not kept (and thus replaced by
a dash) or lies in the strip set `-`/`_`, the whole value strips away and the
sanitizer returns the fallback — this covers both inputs with no kept
character at all and inputs whose kept characters all strip away. -/
theorem sanitize_degenerate (x : String)
    (h : ∀ c ∈ x.data, keepChar (pyLower c) = false ∨ isStripChar (pyLower c) = true) :
    sanitize_site_id x = "site" := by
  have hmap : ∀ c ∈ mapStage x, isStripChar c = true := by
    intro c hc
    unfold mapStage at hc
    obtain ⟨b, hb, hbc⟩ := List.mem_map.mp hc
    obtain ⟨a, ha, hab⟩ := List.mem_map.mp hb
    subst hbc
    subst hab
    by_cases hk : keepChar (pyLower a) = true
    · rw [if_pos hk]
      rcases h a ha with hkf | hs
      · rw [hk] at hkf; exact absurd hkf (by simp)
      · exact hs
    · rw [if_neg hk]
      rfl
  have hstrip : strippedStage x = [] := by
    unfold strippedStage stripBoth
    rw [List.dropWhile_eq_nil_iff.mpr hmap]
    rfl
  have hcol : collapsedStage x = [] := by
    unfold collapsedStage
    rw [hstrip]
    rfl
  rw [sanitize_site_id, if_pos (by rw [hcol]; rfl)]

/-- The sanitizer never returns the empty string. -/
theorem sanitize_ne_empty (x : String) : sanitize_site_id x ≠ "" := by
  rw [sanitize_site_id]
  by_cases h : (collapsedStage x).isEmpty = true
  · rw [if_pos h]; decide
  · rw [if_neg h]
    intro hcon
    apply h
    have hdata : collapsedStage x = [] := congrArg String.data hcon
    rw [hdata]
    rfl

/-- C5: the site-id sanitization function is idempotent — for every raw
identifier string `x`, `sanitize(sanitize(x)) = sanitize(x)` — and in
particular `sanitize("Acme Co!") = "acme-co"`. -/
theorem claim_C5_sanitize_idempotent :
    (∀ x : String, sanitize_site_id (sanitize_site_id x) = sanitize_site_id x) ∧
    sanitize_site_id "Acme Co!" = "acme-co" :=
  ⟨sanitize_idem, sanitize_acme⟩

/-- C10: the sanitizer always returns a non-empty string; on every raw
identifier with no kept character at all, and on every raw identifier whose
kept characters all strip away (each character is either not kept or a `-`/`_`
strip character), it returns the fixed fallback `"site"` — so distinct
degenerate identifiers such as `"!!!"`, `"???"`, `"-_-"` and `"---"` all
collapse to the same site id. -/
theorem claim_C10_sanitize_fallback :
    (∀ x : String, sanitize_site_id x ≠ "") ∧
    (∀ x : String,
        (∀ c ∈ x.data, keepChar (pyLower c) = false ∨ isStripChar (pyLower c) = true) →
        sanitize_site_id x = "site") ∧
    sanitize_site_id "!!!" = "site" ∧ sanitize_site_id "???" = "site" ∧
    sanitize_site_id "-_-" = "site" ∧ sanitize_site_id "---" = "site" :=
  ⟨sanitize_ne_empty, fun x h => sanitize_degenerate x h,
   by decide, by decide, by decide, by decide⟩

/-- Witness for C10: the degenerate-input hypothesis is discharged at the
concrete identifier `"-_-"`, whose kept characters all strip away, and which
indeed collapses to `"site"`. -/
theorem claim_C10_sanitize_fallback_witness :
    (∀ c ∈ ("-_-" : String).data,
        keepChar (pyLower c) = false ∨ isStripChar (pyLower c) = true) ∧
    sanitize_site_id "-_-" = "site" :=
  ⟨by decide, claim_C10_sanitize_fallback.2.1 "-_-" (by decide)⟩

/-! ## Canonical JSON serialization (`json.dumps(..., sort_keys=True, ensure_ascii=False)`) -/

/-- Lexicographic comparison of character lists by code point, the order Python
uses to sort strings (and hence dictionary keys under `sort_keys=True`). -/
def charListLe : List Char → List Char → Bool
  | [], _ => true
  | _ :: _, [] => false
  | a :: as, b :: bs =>
    if a.toNat < b.toNat then true
    else if b.toNat < a.toNat then false
    else charListLe as bs

/-- Code-point lexicographic comparison of strings. -/
def strLe (a b : String) : Bool := charListLe a.data b.data

/-- Characters with equal code points are equal. -/
theorem char_toNat_inj {a b : Char} (h : a.toNat = b.toNat) : a = b :=
  Char.ext (UInt32.toNat.inj h)

/-- Unfolding characterization of the lexicographic comparison on cons cells. -/
theorem charListLe_cons (x y : Char) (xs ys : List Char) :
    charListLe (x :: xs) (y :: ys) = true ↔
      (x.toNat < y.toNat ∨ (x.toNat = y.toNat ∧ charListLe xs ys = true)) := by
  simp only [charListLe]
  by_cases h1 : x.toNat < y.toNat
  · rw [if_pos h1]
    constructor
    · intro _; exact Or.inl h1
    · intro _; rfl
  · rw [if_neg h1]
    by_cases h2 : y.toNat < x.toNat
    · rw [if_pos h2]
      constructor
      · intro hcon; exact absurd hcon (by simp)
      · intro hor; rcases hor with h | ⟨he, _⟩ <;> omega
    · rw [if_neg h2]
      constructor
      · intro h; exact Or.inr ⟨by omega, h⟩
      · intro hor
        rcases hor with h | ⟨_, hr⟩
        · omega
        · exact hr

/-- The lexicographic comparison is total. -/
theorem charListLe_total : ∀ a b : List Char, charListLe a b = true ∨ charListLe b a = true := by
  intro a
  induction a with
  | nil => intro b; exact Or.inl rfl
  | cons x xs ih =>
    intro b
    cases b with
    | nil => exact Or.inr rfl
    | cons y ys =>
      rcases Nat.lt_trichotomy x.toNat y.toNat with h | h | h
      · exact Or.inl ((charListLe_cons x y xs ys).mpr (Or.inl h))
      · rcases ih ys with hr | hr
        · exact Or.inl ((charListLe_cons x y xs ys).mpr (Or.inr ⟨h, hr⟩))
        · exact Or.inr ((charListLe_cons y x ys xs).mpr (Or.inr ⟨h.symm, hr⟩))
      · exact Or.inr ((charListLe_cons y x ys xs).mpr (Or.inl h))

/-- The lexicographic comparison is transitive. -/
theorem charListLe_trans : ∀ a b c : List Char, charListLe a b = true → charListLe b c = true →
    charListLe a c = true := by
  intro a
  induction a with
  | nil => intro b c _ _; rfl
  | cons x xs ih =>
    intro b c hab hbc
    cases b with
    | nil => simp [charListLe] at hab
    | cons y ys =>
      cases c with
      | nil => simp [charListLe] at hbc
      | cons z zs =>
        rw [charListLe_cons] at hab hbc ⊢
        rcases hab with h1 | ⟨h1, hr1⟩
        · rcases hbc with h2 | ⟨h2, _⟩
          · exact Or.inl (by omega)
          · exact Or.inl (by omega)
        · rcases hbc with h2 | ⟨h2, hr2⟩
          · exact Or.inl (by omega)
          · exact Or.inr ⟨by omega, ih ys zs hr1 hr2⟩

/-- The lexicographic comparison is antisymmetric. -/
theorem charListLe_antisymm : ∀ a b : List Char, charListLe a b = true → charListLe b a = true →
    a = b := by
  intro a
  induction a with
  | nil =>
    intro b h1 h2
    cases b with
    | nil => rfl
    | cons y ys => simp [charListLe] at h2
  | cons x xs ih =>
    intro b h1 h2
    cases b with
    | nil => simp [charListLe] at h1
    | cons y ys =>
      rw [charListLe_cons] at h1 h2
      rcases h1 with h | ⟨he1, hr1⟩
      · rcases h2 with h2 | ⟨he2, _⟩ <;> omega
      · rcases h2 with h2 | ⟨he2, hr2⟩
        · omega
        · rw [char_toNat_inj he1, ih ys hr1 hr2]

/-- Strings with equal character data are equal. -/
theorem string_data_inj {a b : String} (h : a.data = b.data) : a = b :=
  String.ext h

/-- The string comparison is antisymmetric. -/
theorem strLe_antisymm (a b : String) (h1 : strLe a b = true) (h2 : strLe b a = true) : a = b :=
  string_data_inj (charListLe_antisymm a.data b.data h1 h2)

/-- The key order used when serializing an object: compare rendered pairs by key. -/
def pairLe (p q : String × String) : Prop := strLe p.1 q.1 = true

instance : DecidableRel pairLe := fun _ _ => instDecidableEqBool _ _

instance : IsTotal (String × String) pairLe :=
  ⟨fun p q => charListLe_total p.1.data q.1.data⟩

instance : IsTrans (String × String) pairLe :=
  ⟨fun _ _ _ hab hbc => charListLe_trans _ _ _ hab hbc⟩

/-- Strict variant of the pair key order, used to identify sorted lists. -/
def pairLt (p q : String × String) : Prop := pairLe p q ∧ p.1 ≠ q.1

instance : IsAntisymm (String × String) pairLt :=
  ⟨fun a b hab hba => absurd (strLe_antisymm a.1 b.1 hab.1 hba.1) hab.2⟩

/-- Sorting of rendered key/value pairs by key (`sort_keys=True`). -/
def sortPairsS (l : List (String × String)) : List (String × String) :=
  List.insertionSort pairLe l

mutual
/-- A JSON value as produced by `page.evaluate`: the object constructor keeps
its key/value pairs in insertion order, as a Python `dict` does. -/
inductive J where
  | null : J
  | bool (b : Bool) : J
  | num (n : Int) : J
  | str (s : String) : J
  | arr (xs : JList) : J
  | obj (kvs : JPairs) : J
inductive JList where
  | nil : JList
  | cons (x : J) (xs : JList) : JList
inductive JPairs where
  | nil : JPairs
  | cons (k : String) (v : J) (kvs : JPairs) : JPairs
end

/-- Decimal digits of a natural number; the fuel argument bounds the recursion. -/
def natDigits : Nat → Nat → List Char
  | 0, _ => []
  | fuel + 1, v => if v < 10 then [Char.ofNat (48 + v)] else natDigits fuel (v / 10) ++ [Char.ofNat (48 + v % 10)]

/-- Decimal rendering of a natural number. -/
def natDec (v : Nat) : String := ⟨natDigits (v + 1) v⟩

/-- Python `repr` of an integer, as emitted by `json.dumps`. -/
def intDec (n : Int) : String := if n < 0 then "-" ++ natDec n.natAbs else natDec n.natAbs

/-- JSON string escaping as performed by `json.dumps(..., ensure_ascii=False)`:
escape the quote, the backslash, and control characters, pass the rest through. -/
def escChar (c : Char) : List Char :=
  if c = '"' then ['\\', '"']
  else if c = '\\' then ['\\', '\\']
  else if c.toNat = 8 then ['\\', 'b']
  else if c.toNat = 9 then ['\\', 't']
  else if c.toNat = 10 then ['\\', 'n']
  else if c.toNat = 12 then ['\\', 'f']
  else if c.toNat = 13 then ['\\', 'r']
  else if c.toNat < 32 then ['\\', 'u', '0', '0', hexDigit (c.toNat / 16), hexDigit (c.toNat % 16)]
  else [c]

/-- Quote and escape a JSON string. -/
def quoteJ (s : String) : String := ⟨'"' :: (s.data.flatMap escChar ++ ['"'])⟩

/-- Join rendered items with the default `json.dumps` item separator. -/
def joinComma : List String → String
  | [] => ""
  | [s] => s
  | s :: rest => s ++ ", " ++ joinComma rest

/-- Render already-serialized key/value pairs with the default key separator. -/
def renderPairs (l : List (String × String)) : List String :=
  l.map fun p => quoteJ p.1 ++ ": " ++ p.2

mutual
/-- Embedding of `json.dumps(value, sort_keys=True, ensure_ascii=False)`.
Python sorts each object by key and then serializes the values in that order;
since each item serializes independently, this is rendered here by first
serializing the pairs and then sorting the rendered pairs by key. -/
def dumpsJ : J → String
  | .null => "null"
  | .bool true => "true"
  | .bool false => "false"
  | .num n => intDec n
  | .str s => quoteJ s
  | .arr xs => "[" ++ joinComma (dumpsL xs) ++ "]"
  | .obj kvs => "\x7b" ++ joinComma (renderPairs (sortPairsS (dumpsP kvs))) ++ "\x7d"
def dumpsL : JList → List String
  | .nil => []
  | .cons x xs => dumpsJ x :: dumpsL xs
def dumpsP : JPairs → List (String × String)
  | .nil => []
  | .cons k v kvs => (k, dumpsJ v) :: dumpsP kvs
end

/-- Embedding of `compute_form_signature`: the SHA-256 digest of the canonical
serialization `json.dumps(list(forms), sort_keys=True, ensure_ascii=False)`. -/
def compute_form_signature (forms : JList) : String :=
  sha256_text (dumpsJ (J.arr forms))

/-- Insert a pair into a key-sorted object pair list. -/
def insertPairJ (k : String) (v : J) : JPairs → JPairs
  | .nil => .cons k v .nil
  | .cons k2 v2 rest =>
    if strLe k k2 = true then .cons k v (.cons k2 v2 rest)
    else .cons k2 v2 (insertPairJ k v rest)

/-- Insertion sort of object pairs by key. -/
def sortPairsJ : JPairs → JPairs
  | .nil => .nil
  | .cons k v rest => insertPairJ k v (sortPairsJ rest)

mutual
/-- Canonical form of a JSON value: every object's pair list is sorted by key,
recursively, while arrays keep their order.  Two well-formed values have the
same canonical form exactly when they are equal as data — same arrays in the
same order, same key/value pairs in every object — up to key insertion order. -/
def sortKeysRec : J → J
  | .null => .null
  | .bool b => .bool b
  | .num n => .num n
  | .str s => .str s
  | .arr xs => .arr (sKRL xs)
  | .obj kvs => .obj (sortPairsJ (sKRP kvs))
/-- Canonical form of a JSON array, elementwise. -/
def sKRL : JList → JList
  | .nil => .nil
  | .cons x xs => .cons (sortKeysRec x) (sKRL xs)
/-- Canonical form of the values of an object pair list. -/
def sKRP : JPairs → JPairs
  | .nil => .nil
  | .cons k v kvs => .cons k (sortKeysRec v) (sKRP kvs)
end

/-- Keys of an object pair list, in insertion order. -/
def keysOfP : JPairs → List String
  | .nil => []
  | .cons k _ rest => k :: keysOfP rest

/-- Executable membership test on key lists. -/
def memB (k : String) : List String → Bool
  | [] => false
  | x :: rest => (k == x) || memB k rest

/-- Executable duplicate-freedom test on key lists. -/
def keysNodupB : List String → Bool
  | [] => true
  | k :: rest => (!memB k rest) && keysNodupB rest

mutual
/-- Recursive well-formedness of a JSON value: every object in the tree has
duplicate-free keys, as any value decoded from a Python dict must. -/
def nodupRecJ : J → Bool
  | .null => true
  | .bool _ => true
  | .num _ => true
  | .str _ => true
  | .arr xs => nodupRecL xs
  | .obj kvs => keysNodupB (keysOfP kvs) && nodupRecP kvs
/-- Recursive well-formedness of a JSON array. -/
def nodupRecL : JList → Bool
  | .nil => true
  | .cons x xs => nodupRecJ x && nodupRecL xs
/-- Recursive well-formedness of the values of an object pair list. -/
def nodupRecP : JPairs → Bool
  | .nil => true
  | .cons _ v kvs => nodupRecJ v && nodupRecP kvs
end

/-- The executable membership test agrees with list membership. -/
theorem memB_iff (k : String) : ∀ l : List String, memB k l = true ↔ k ∈ l := by
  intro l
  induction l with
  | nil => simp [memB]
  | cons x rest ih =>
    rw [memB, Bool.or_eq_true, ih]
    simp [List.mem_cons]

/-- The executable duplicate-freedom test agrees with `List.Nodup`. -/
theorem keysNodupB_iff : ∀ l : List String, keysNodupB l = true ↔ l.Nodup := by
  intro l
  induction l with
  | nil => simp [keysNodupB]
  | cons k rest ih =>
    rw [keysNodupB, Bool.and_eq_true, List.nodup_cons]
    constructor
    · rintro ⟨h1, h2⟩
      refine ⟨fun hmem => ?_, ih.mp h2⟩
      rw [(memB_iff k rest).mpr hmem] at h1
      simp at h1
    · rintro ⟨h1, h2⟩
      refine ⟨?_, ih.mpr h2⟩
      have hf : memB k rest = false := by
        rcases Bool.eq_false_or_eq_true (memB k rest) with ht | hf
        · exact absurd ((memB_iff k rest).mp ht) h1
        · exact hf
      rw [hf]
      rfl

/-- Inserting a pair renders to a permutation of consing the rendered pair. -/
theorem dumpsP_insertPairJ (k : String) (v : J) : ∀ l : JPairs,
    (dumpsP (insertPairJ k v l)).Perm ((k, dumpsJ v) :: dumpsP l)
  | .nil => List.Perm.refl _
  | .cons k2 v2 rest => by
    rw [insertPairJ]
    by_cases h : strLe k k2 = true
    · rw [if_pos h]
      exact List.Perm.refl _
    · rw [if_neg h]
      show ((k2, dumpsJ v2) :: dumpsP (insertPairJ k v rest)).Perm
          ((k, dumpsJ v) :: (k2, dumpsJ v2) :: dumpsP rest)
      exact (List.Perm.cons _ (dumpsP_insertPairJ k v rest)).trans (List.Perm.swap _ _ _)

/-- Sorting object pairs renders to a permutation of the unsorted rendering. -/
theorem dumpsP_sortPairsJ_perm : ∀ l : JPairs, (dumpsP (sortPairsJ l)).Perm (dumpsP l)
  | .nil => List.Perm.refl _
  | .cons k v rest => by
    rw [sortPairsJ]
    exact (dumpsP_insertPairJ k v _).trans
      (List.Perm.cons _ (dumpsP_sortPairsJ_perm rest))

/-- Keys of the rendered pairs are the keys of the object. -/
theorem map_fst_dumpsP : ∀ l : JPairs, (dumpsP l).map Prod.fst = keysOfP l
  | .nil => rfl
  | .cons k v rest => by
    show k :: (dumpsP rest).map Prod.fst = k :: keysOfP rest
    rw [map_fst_dumpsP rest]

/-- A key-sorted pair list with duplicate-free keys is sorted by the strict key order. -/
theorem sorted_pairLt_of (l : List (String × String)) (hs : List.Sorted pairLe l)
    (hnd : (l.map Prod.fst).Nodup) : List.Sorted pairLt l := by
  have hne : List.Pairwise (fun p q : String × String => p.1 ≠ q.1) l :=
    List.pairwise_map.mp hnd
  exact hs.and hne

/-- Sorting rendered pairs by key is invariant under permutation when the keys
are duplicate-free. -/
theorem sortPairsS_perm_eq (l₁ l₂ : List (String × String)) (hp : l₁.Perm l₂)
    (hnd : (l₂.map Prod.fst).Nodup) : sortPairsS l₁ = sortPairsS l₂ := by
  have hperm : (sortPairsS l₁).Perm (sortPairsS l₂) :=
    ((List.perm_insertionSort pairLe l₁).trans hp).trans
      (List.perm_insertionSort pairLe l₂).symm
  have hnd₂ : ((sortPairsS l₂).map Prod.fst).Nodup :=
    (((List.perm_insertionSort pairLe l₂).map Prod.fst).nodup_iff).mpr hnd
  have hnd₁ : ((sortPairsS l₁).map Prod.fst).Nodup :=
    ((hperm.map Prod.fst).nodup_iff).mpr hnd₂
  exact List.eq_of_perm_of_sorted hperm
    (sorted_pairLt_of _ (List.sorted_insertionSort pairLe l₁) hnd₁)
    (sorted_pairLt_of _ (List.sorted_insertionSort pairLe l₂) hnd₂)

mutual
/-- Serialization is invariant under recursive key sorting on well-formed values. -/
theorem dumpsJ_sKR : ∀ a : J, nodupRecJ a = true → dumpsJ (sortKeysRec a) = dumpsJ a
  | .null, _ => rfl
  | .bool _, _ => rfl
  | .num _, _ => rfl
  | .str _, _ => rfl
  | .arr xs, h => by
    show "[" ++ joinComma (dumpsL (sKRL xs)) ++ "]" = "[" ++ joinComma (dumpsL xs) ++ "]"
    rw [dumpsL_sKR xs h]
  | .obj kvs, h => by
    rw [nodupRecJ, Bool.and_eq_true] at h
    show "\x7b" ++ joinComma (renderPairs (sortPairsS (dumpsP (sortPairsJ (sKRP kvs))))) ++ "\x7d"
        = "\x7b" ++ joinComma (renderPairs (sortPairsS (dumpsP kvs))) ++ "\x7d"
    have hP : dumpsP (sKRP kvs) = dumpsP kvs := dumpsP_sKR kvs h.2
    have hperm : (dumpsP (sortPairsJ (sKRP kvs))).Perm (dumpsP kvs) := by
      have h0 := dumpsP_sortPairsJ_perm (sKRP kvs)
      rwa [hP] at h0
    have hnd : ((dumpsP kvs).map Prod.fst).Nodup := by
      rw [map_fst_dumpsP]
      exact (keysNodupB_iff _).mp h.1
    rw [sortPairsS_perm_eq _ _ hperm hnd]
/-- Array serialization is invariant under recursive key sorting. -/
theorem dumpsL_sKR : ∀ xs : JList, nodupRecL xs = true → dumpsL (sKRL xs) = dumpsL xs
  | .nil, _ => rfl
  | .cons x xs, h => by
    rw [nodupRecL, Bool.and_eq_true] at h
    show dumpsJ (sortKeysRec x) :: dumpsL (sKRL xs) = dumpsJ x :: dumpsL xs
    rw [dumpsJ_sKR x h.1, dumpsL_sKR xs h.2]
/-- Object value serialization is invariant under recursive key sorting. -/
theorem dumpsP_sKR : ∀ kvs : JPairs, nodupRecP kvs = true → dumpsP (sKRP kvs) = dumpsP kvs
  | .nil, _ => rfl
  | .cons k v kvs, h => by
    rw [nodupRecP, Bool.and_eq_true] at h
    show (k, dumpsJ (sortKeysRec v)) :: dumpsP (sKRP kvs) = (k, dumpsJ v) :: dumpsP kvs
    rw [dumpsJ_sKR v h.1, dumpsP_sKR kvs h.2]
end

/-- A minimal form object with index 0. -/
def exForm₀ : J := J.obj (JPairs.cons "index" (J.num 0) JPairs.nil)

/-- A minimal form object with index 1. -/
def exForm₁ : J := J.obj (JPairs.cons "index" (J.num 1) JPairs.nil)

/-- Two forms in document order. -/
def exFormsAB : JList := JList.cons exForm₀ (JList.cons exForm₁ JList.nil)

/-- The same two forms with the forms array reordered. -/
def exFormsBA : JList := JList.cons exForm₁ (JList.cons exForm₀ JList.nil)

/-- A form whose fields array lists two field names in a given order. -/
def exFieldsForm (first second : String) : J :=
  J.obj (JPairs.cons "fields"
    (J.arr (JList.cons (J.str first) (JList.cons (J.str second) JList.nil))) JPairs.nil)

/-- A single form with fields in one order. -/
def exFormsFields₁ : JList := JList.cons (exFieldsForm "name" "email") JList.nil

/-- The same form with its fields array reordered. -/
def exFormsFields₂ : JList := JList.cons (exFieldsForm "email" "name") JList.nil

/-- A form object whose keys are listed in one insertion order. -/
def exKeyOrder₁ : JList :=
  JList.cons (J.obj (JPairs.cons "action" (J.str "/submit")
    (JPairs.cons "method" (J.str "post") JPairs.nil))) JList.nil

/-- The same form object with its keys listed in the other insertion order. -/
def exKeyOrder₂ : JList :=
  JList.cons (J.obj (JPairs.cons "method" (J.str "post")
    (JPairs.cons "action" (J.str "/submit") JPairs.nil))) JList.nil

/-- C3: `compute_form_signature` hashes a canonical serialization with sorted
object keys, so any two forms lists that are equal as data — same arrays in the
same order, same key/value pairs in every well-formed object — up to object key
insertion order produce the same signature; and array order is significant:
reordering the forms array, or a fields array inside a form, can change the
signature. -/
theorem claim_C3_signature_canonicalization :
    (∀ fs₁ fs₂ : JList, nodupRecL fs₁ = true → nodupRecL fs₂ = true →
        sKRL fs₁ = sKRL fs₂ → compute_form_signature fs₁ = compute_form_signature fs₂) ∧
    compute_form_signature exFormsAB ≠ compute_form_signature exFormsBA ∧
    compute_form_signature exFormsFields₁ ≠ compute_form_signature exFormsFields₂ := by
  refine ⟨?_, by decide, by decide⟩
  intro fs₁ fs₂ h1 h2 heq
  have h1j : nodupRecJ (J.arr fs₁) = true := by rw [nodupRecJ]; exact h1
  have h2j : nodupRecJ (J.arr fs₂) = true := by rw [nodupRecJ]; exact h2
  unfold compute_form_signature
  have e1 : dumpsJ (J.arr fs₁) = dumpsJ (sortKeysRec (J.arr fs₁)) := (dumpsJ_sKR _ h1j).symm
  have e2 : dumpsJ (sortKeysRec (J.arr fs₂)) = dumpsJ (J.arr fs₂) := dumpsJ_sKR _ h2j
  have e3 : sortKeysRec (J.arr fs₁) = sortKeysRec (J.arr fs₂) := by
    show J.arr (sKRL fs₁) = J.arr (sKRL fs₂)
    rw [heq]
  rw [e1, e3, e2]

/-- Witness for C3: the same form object presented with the two possible key
insertion orders is well-formed, canonicalizes identically, and the signatures
coincide. -/
theorem claim_C3_signature_canonicalization_witness :
    nodupRecL exKeyOrder₁ = true ∧ nodupRecL exKeyOrder₂ = true ∧
    sKRL exKeyOrder₁ = sKRL exKeyOrder₂ ∧
    compute_form_signature exKeyOrder₁ = compute_form_signature exKeyOrder₂ :=
  ⟨rfl, rfl, rfl,
    claim_C3_signature_canonicalization.1 exKeyOrder₁ exKeyOrder₂ rfl rfl rfl⟩

/-! ## Multi-step inference (`infer_multi_step`) -/

/-- Python `str.lower` on a whole string, over the ASCII range. -/
def pyLowerStr (s : String) : String := ⟨s.data.map pyLower⟩

/-- Executable prefix test on character lists. -/
def isPrefixList : List Char → List Char → Bool
  | [], _ => true
  | _ :: _, [] => false
  | a :: as, b :: bs => (a == b) && isPrefixList as bs

/-- Executable substring test on character lists (Python `needle in haystack`). -/
def substrIn (needle : List Char) : List Char → Bool
  | [] => isPrefixList needle []
  | c :: rest => isPrefixList needle (c :: rest) || substrIn needle rest

/-- Python `needle in haystack` on strings. -/
def strContains (haystack needle : String) : Bool := substrIn needle.data haystack.data

/-- A submit candidate as emitted by the in-page extraction script. -/
structure SubmitCandidate where
  selector : Option String
  text : String
  type : String
deriving DecidableEq

/-- A form control descriptor as emitted by the in-page extraction script. -/
structure FieldData where
  name : Option String
  id : Option String
  tag : Option String
  type : Option String
  required : Bool
  placeholder : Option String
  labels : List String
  ariaRequired : Option String
  autocomplete : Option String
deriving DecidableEq

/-- A form descriptor as emitted by the in-page extraction script; the dataset
values are optional to mirror the `value is not None` guard in the source. -/
structure FormData where
  index : Nat
  action : Option String
  method : String
  dataset : List (String × Option String)
  fields : List FieldData
  submitters : List SubmitCandidate
deriving DecidableEq

/-- The multi-step inference result `{"likely": ..., "signals": ...}`. -/
structure MultiStepSignal where
  likely : Bool
  signals : List String
deriving DecidableEq

/-- The continuation vocabulary matched against submit-candidate text. -/
def stepTerms : List String := ["next", "continue", "step", "proceed", "save & next"]

/-- Code-point order on strings as a relation, the order of Python `sorted`. -/
def strLeP (a b : String) : Prop := strLe a b = true

instance : DecidableRel strLeP := fun _ _ => instDecidableEqBool _ _

instance : IsTotal String strLeP := ⟨fun a b => charListLe_total a.data b.data⟩

instance : IsTrans String strLeP := ⟨fun _ _ _ h1 h2 => charListLe_trans _ _ _ h1 h2⟩

/-- Sort a list of strings in code-point order (Python `sorted`). -/
def sortStrings (l : List String) : List String := List.insertionSort strLeP l

/-- The signal strings accumulated by `infer_multi_step`, in accumulation
order: HTML keyword markers, then per form its dataset entries mentioning
"step" and its submit candidates with continuation text, then the
multiple-forms marker. -/
def rawSignals (forms : List FormData) (dom_html : String) : List String :=
  let html_lower := pyLowerStr dom_html
  ((if strContains html_lower "data-step" then ["dom:data-step"] else []) ++
   (if strContains html_lower "form-step" then ["dom:form-step"] else []) ++
   (if strContains html_lower "wizard" then ["dom:wizard-keyword"] else []) ++
   (if strContains html_lower "progressbar" then ["dom:progressbar"] else [])) ++
  (forms.flatMap fun form =>
    (form.dataset.flatMap fun kv =>
      let joined := match kv.2 with
        | some v => kv.1 ++ "=" ++ v
        | none => kv.1
      if (strContains (pyLowerStr kv.1) "step" ||
          (match kv.2 with
           | some v => strContains (pyLowerStr v) "step"
           | none => false)) = true
      then ["form-dataset:" ++ joined] else []) ++
    (form.submitters.flatMap fun submit =>
      let text := pyLowerStr submit.text
      if (stepTerms.any fun term => strContains text term) = true then
        (if text = "" then [] else ["submit-text:" ++ text])
      else [])) ++
  (if forms.length > 1 then ["multiple-forms-on-page"] else [])

/-- Embedding of `infer_multi_step`: deduplicate and sort the accumulated
signals (`sorted(set(signals))`) and report `likely` iff any signal remains. -/
def infer_multi_step (forms : List FormData) (dom_html : String) : MultiStepSignal :=
  let uniq := sortStrings (rawSignals forms dom_html).dedup
  ⟨!uniq.isEmpty, uniq⟩

/-- A form with two submit candidates whose text is "Next". -/
def exDupForm : FormData :=
  ⟨0, none, "post", [], [], [⟨some "form > button", "Next", "submit"⟩,
    ⟨some "form > button:nth-of-type(2)", "Next", "submit"⟩]⟩

/-- C4: the multi-step signal list is always duplicate-free and sorted in
code-point order, `likely` is true iff the list is non-empty, and duplicate
textual cues collapse: a form with two "Next" submit buttons yields the
`submit-text:next` signal exactly once.  Determinism over the input is
inherent: the embedding is a pure function of `(forms, dom_html)`. -/
theorem claim_C4_multistep_signals :
    (∀ (forms : List FormData) (html : String),
        (infer_multi_step forms html).signals.Nodup ∧
        List.Sorted strLeP (infer_multi_step forms html).signals ∧
        ((infer_multi_step forms html).likely = true ↔
          (infer_multi_step forms html).signals ≠ [])) ∧
    (infer_multi_step [exDupForm] "").signals.count "submit-text:next" = 1 ∧
    (infer_multi_step [exDupForm] "").signals = ["submit-text:next"] := by
  refine ⟨?_, by decide, by decide⟩
  intro forms html
  refine ⟨?_, ?_, ?_⟩
  · exact ((List.perm_insertionSort strLeP _).nodup_iff).mpr
      (List.nodup_dedup (rawSignals forms html))
  · exact List.sorted_insertionSort strLeP _
  · show (!(sortStrings (rawSignals forms html).dedup).isEmpty) = true ↔
      sortStrings (rawSignals forms html).dedup ≠ []
    simp [List.isEmpty_iff]

/-! ## Snapshots and the diff engine (`compare_maps`) -/

/-- The artifact paths recorded in a capture payload. -/
structure Artifacts where
  map_html : String
  screenshot : String
  map_json : String
deriving DecidableEq

/-- The capture payload dictionary built by `_capture_target` and written to
`map.json`; the previous snapshot loaded by `_load_existing_map` has the same
shape. -/
structure Payload where
  tool_version : String
  site_id : String
  raw_site_id : String
  homepage : String
  submission_url : Option String
  target_url : Option String
  resolved_url : Option String
  captured_at : String
  mode : String
  status : String
  error : Option String
  dom_checksum : Option String
  form_signature : Option String
  form_count : Nat
  field_count : Nat
  has_captcha : Bool
  multi_step_signal : MultiStepSignal
  likely_multi_step : Bool
  forms : List FormData
  submitters : List String
  notes : String
  artifacts : Artifacts
  status_code : Option Nat
  load_duration_ms : Option Int
deriving DecidableEq

/-- The result of `compare_maps`: the `changed` flag and the change tags. -/
structure DiffResult where
  changed : Bool
  change_types : List String
deriving DecidableEq

/-- Embedding of `compare_maps`: five independent comparisons, each appending
one fixed tag; the `resolved_url` comparison normalizes a missing value to the
empty string (`previous.get("resolved_url") or ""`), the other four compare the
fields directly. -/
def compare_maps (previous current : Payload) : DiffResult :=
  let changes :=
    (if previous.dom_checksum ≠ current.dom_checksum then ["DOM"] else []) ++
    (if previous.form_signature ≠ current.form_signature then ["FORMS"] else []) ++
    (if previous.has_captcha ≠ current.has_captcha then ["CAPTCHA"] else []) ++
    (if previous.likely_multi_step ≠ current.likely_multi_step then ["STEP_HINT"] else []) ++
    (if previous.resolved_url.getD "" ≠ current.resolved_url.getD "" then ["URL"] else [])
  ⟨!changes.isEmpty, changes⟩

/-- A snapshot with a chosen resolved url and captcha flag, all other tracked
fields fixed; used to exercise `compare_maps` at concrete inputs. -/
def mkSnap (ru : Option String) (cap : Bool) : Payload :=
  ⟨"1.0.0", "site-a", "Site A", "https://a.test", none, some "https://a.test", ru,
   "t0", "monitor", "ok", none, some "h1", some "f1", 1, 2, cap, ⟨false, []⟩, false, [], [], "",
   ⟨"site-a/map.html", "site-a/sshot.png", "site-a/map.json"⟩, some 200, some 100⟩

/-- Counterexample to C1 as stated: two snapshots whose `resolved_url` fields
mismatch (`null` versus the empty string) while the four other tracked fields
agree, yet `compare_maps` reports no change at all — the code first normalizes
a missing `resolved_url` to `""`, so this mismatched pair yields no `URL` tag
and `changed = false`, contradicting one-tag-per-mismatched-field. -/
theorem claim_C1_counterexample :
    (mkSnap none false).resolved_url ≠ (mkSnap (some "") false).resolved_url ∧
    (mkSnap none false).dom_checksum = (mkSnap (some "") false).dom_checksum ∧
    (mkSnap none false).form_signature = (mkSnap (some "") false).form_signature ∧
    (mkSnap none false).has_captcha = (mkSnap (some "") false).has_captcha ∧
    (mkSnap none false).likely_multi_step = (mkSnap (some "") false).likely_multi_step ∧
    compare_maps (mkSnap none false) (mkSnap (some "") false) = ⟨false, []⟩ := by
  decide

/-- C1 (amended): each tag appears in `change_types` exactly when its tracked
field mismatches, where the `resolved_url` comparison first normalizes a
missing value to the empty string; the tags are pairwise independent, drawn
from the five fixed tags, duplicate-free, and `changed` is true iff the tag
list is non-empty.  In particular two snapshots identical except for the
captcha flag compare to exactly `changed = true, change_types = [CAPTCHA]`. -/
theorem claim_C1_diff_exactness :
    (∀ p c : Payload,
      ("DOM" ∈ (compare_maps p c).change_types ↔ p.dom_checksum ≠ c.dom_checksum) ∧
      ("FORMS" ∈ (compare_maps p c).change_types ↔ p.form_signature ≠ c.form_signature) ∧
      ("CAPTCHA" ∈ (compare_maps p c).change_types ↔ p.has_captcha ≠ c.has_captcha) ∧
      ("STEP_HINT" ∈ (compare_maps p c).change_types ↔
        p.likely_multi_step ≠ c.likely_multi_step) ∧
      ("URL" ∈ (compare_maps p c).change_types ↔
        p.resolved_url.getD "" ≠ c.resolved_url.getD "") ∧
      (compare_maps p c).change_types.Nodup ∧
      (∀ t ∈ (compare_maps p c).change_types,
        t ∈ ["DOM", "FORMS", "CAPTCHA", "STEP_HINT", "URL"]) ∧
      ((compare_maps p c).changed = true ↔ (compare_maps p c).change_types ≠ [])) ∧
    (∀ p c : Payload, p.dom_checksum = c.dom_checksum → p.form_signature = c.form_signature →
      p.likely_multi_step = c.likely_multi_step → p.resolved_url = c.resolved_url →
      p.has_captcha ≠ c.has_captcha → compare_maps p c = ⟨true, ["CAPTCHA"]⟩) := by
  constructor
  · intro p c
    by_cases h1 : p.dom_checksum = c.dom_checksum <;>
    by_cases h2 : p.form_signature = c.form_signature <;>
    by_cases h3 : p.has_captcha = c.has_captcha <;>
    by_cases h4 : p.likely_multi_step = c.likely_multi_step <;>
    by_cases h5 : p.resolved_url.getD "" = c.resolved_url.getD "" <;>
    simp [compare_maps, h1, h2, h3, h4, h5]
  · intro p c e1 e2 e3 e4 hne
    simp [compare_maps, e1, e2, e3, e4, hne]

/-- Witness for C1 (amended): two concrete snapshots identical except for the
captcha flag compare to exactly `changed = true, change_types = [CAPTCHA]`. -/
theorem claim_C1_diff_exactness_witness :
    (mkSnap (some "https://a.test/submit") false).has_captcha ≠
      (mkSnap (some "https://a.test/submit") true).has_captcha ∧
    compare_maps (mkSnap (some "https://a.test/submit") false)
      (mkSnap (some "https://a.test/submit") true) = ⟨true, ["CAPTCHA"]⟩ :=
  ⟨by decide, claim_C1_diff_exactness.2 _ _ rfl rfl rfl rfl (by decide)⟩

/-! ## Target capture (`_capture_target`) -/

/-- A monitoring target as built by `load_targets`. -/
structure Target where
  site_id : String
  homepage : String
  submission_url : Option String
  notes : String
  raw_site_id : String
deriving DecidableEq

/-- The `target_url` property: `self.submission_url or self.homepage`, and
`None` when both are falsy. -/
def Target.target_url (t : Target) : Option String :=
  let url := match t.submission_url with
    | some u => if u = "" then t.homepage else u
    | none => t.homepage
  if url = "" then none else some url

/-- Convert a JSON value list into a `JList`. -/
def toJList : List J → JList
  | [] => JList.nil
  | x :: xs => JList.cons x (toJList xs)

/-- Convert a key/value list into `JPairs`, preserving insertion order. -/
def toJPairs : List (String × J) → JPairs
  | [] => JPairs.nil
  | (k, v) :: rest => JPairs.cons k v (toJPairs rest)

/-- Render an optional string the way the extraction script does. -/
def optStrJ : Option String → J
  | none => J.null
  | some s => J.str s

/-- JSON shape of a field descriptor, keys in the insertion order of the
extraction script. -/
def fieldToJ (f : FieldData) : J :=
  J.obj (toJPairs
    [("name", optStrJ f.name), ("id", optStrJ f.id), ("tag", optStrJ f.tag),
     ("type", optStrJ f.type), ("required", J.bool f.required),
     ("placeholder", optStrJ f.placeholder),
     ("labels", J.arr (toJList (f.labels.map J.str))),
     ("ariaRequired", optStrJ f.ariaRequired), ("autocomplete", optStrJ f.autocomplete)])

/-- JSON shape of a submit candidate. -/
def submitToJ (s : SubmitCandidate) : J :=
  J.obj (toJPairs
    [("selector", optStrJ s.selector), ("text", J.str s.text), ("type", J.str s.type)])

/-- JSON shape of a form descriptor as returned by `page.evaluate`. -/
def formDataToJ (f : FormData) : J :=
  J.obj (toJPairs
    [("index", J.num f.index), ("action", optStrJ f.action), ("method", J.str f.method),
     ("dataset", J.obj (toJPairs (f.dataset.map fun kv => (kv.1, optStrJ kv.2)))),
     ("fields", J.arr (toJList (f.fields.map fieldToJ))),
     ("submitters", J.arr (toJList (f.submitters.map submitToJ)))])

/-- JSON shape of the extracted forms list. -/
def formsToJList (fs : List FormData) : JList := toJList (fs.map formDataToJ)

/-- The toolkit version constant. -/
def TOOL_VERSION : String := "1.0.0"

/-- The outcome of driving the browser for one target: either the rendered
document with its extraction results, or one of the three caught failure
classes; failures carry whatever `resolved_url`/`status_code` had already been
recorded before the exception was raised. -/
inductive CaptureOutcome where
  | success (resolvedUrl : String) (statusCode : Option Nat) (html : String)
      (forms : List FormData) (hasCaptcha : Bool)
  | navTimeout (resolvedUrl : Option String) (statusCode : Option Nat) (msg : String)
  | playwrightError (resolvedUrl : Option String) (statusCode : Option Nat) (msg : String)
  | unexpectedError (resolvedUrl : Option String) (statusCode : Option Nat) (msg : String)
deriving DecidableEq

/-- Recognize the failure outcomes. -/
def CaptureOutcome.isFailure : CaptureOutcome → Bool
  | .success _ _ _ _ _ => false
  | _ => true

/-- The initial payload dictionary of `_capture_target`, before navigation. -/
def initPayload (t : Target) (timestamp mode : String) : Payload :=
  ⟨TOOL_VERSION, t.site_id, t.raw_site_id, t.homepage, t.submission_url, t.target_url, none,
   timestamp, mode, "error", none, none, none, 0, 0, false, ⟨false, []⟩, false, [], [], t.notes,
   ⟨t.site_id ++ "/map.html", t.site_id ++ "/sshot.png", t.site_id ++ "/map.json"⟩, none, none⟩

/-- Embedding of `_capture_target`: start from the error-status payload; bail
out early when there is no target url; on success update status, checksums,
counts, forms, submitters and signals together; on a caught failure record only
the error message (and whatever url/status was seen).  The wall-clock
`load_duration_ms` is supplied as a parameter. -/
def capture_target (t : Target) (timestamp mode : String) (oc : CaptureOutcome)
    (durationMs : Int) : Payload :=
  let base := initPayload t timestamp mode
  match t.target_url with
  | none =>
    { base with error := some "Missing submission_url and homepage; nothing to capture." }
  | some _ =>
    match oc with
    | .success resolvedUrl statusCode html forms hasCaptcha =>
      let multi_step := infer_multi_step forms html
      { base with
        resolved_url := some resolvedUrl
        status_code := statusCode
        status := "ok"
        error := none
        dom_checksum := some (sha256_text html)
        form_signature := some (compute_form_signature (formsToJList forms))
        form_count := forms.length
        field_count := (forms.map fun f => f.fields.length).sum
        forms := forms
        submitters := sortStrings ((forms.flatMap fun f =>
          f.submitters.filterMap fun s => s.selector).dedup)
        has_captcha := hasCaptcha
        multi_step_signal := multi_step
        likely_multi_step := multi_step.likely
        load_duration_ms := some durationMs }
    | .navTimeout resolvedUrl statusCode msg =>
      { base with
        resolved_url := resolvedUrl
        status_code := statusCode
        error := some ("Navigation timeout after 25000 ms: " ++ msg)
        load_duration_ms := some durationMs }
    | .playwrightError resolvedUrl statusCode msg =>
      { base with
        resolved_url := resolvedUrl
        status_code := statusCode
        error := some ("Playwright error: " ++ msg)
        load_duration_ms := some durationMs }
    | .unexpectedError resolvedUrl statusCode msg =>
      { base with
        resolved_url := resolvedUrl
        status_code := statusCode
        error := some ("Unexpected error: " ++ msg)
        load_duration_ms := some durationMs }

/-- C8: every payload produced by a capture has `dom_checksum` and
`form_signature` both present exactly when its status is `ok`, and both absent
exactly when its status is `error`; one is never present without the other. -/
theorem claim_C8_checksum_signature_together :
    ∀ (t : Target) (timestamp mode : String) (oc : CaptureOutcome) (d : Int),
      let p := capture_target t timestamp mode oc d
      ((p.dom_checksum.isSome ∧ p.form_signature.isSome) ↔ p.status = "ok") ∧
      ((p.dom_checksum.isNone ∧ p.form_signature.isNone) ↔ p.status = "error") ∧
      (p.status = "ok" ∨ p.status = "error") := by
  intro t timestamp mode oc d
  cases hurl : t.target_url with
  | none =>
    simp [capture_target, hurl, initPayload]
  | some u =>
    cases oc <;> simp [capture_target, hurl, initPayload]

/-! ## Master index and change log (`_record_master_index`, `_log_change_event`) -/

/-- Join strings with a separator (Python `sep.join`). -/
def joinSep (sep : String) : List String → String
  | [] => ""
  | [s] => s
  | s :: rest => s ++ sep ++ joinSep sep rest

/-- A change-event row, mirroring `EVENT_HEADERS`. -/
structure EventRow where
  timestamp : String
  site_id : String
  level : String
  change_type : String
  dom_checksum_prev : String
  dom_checksum_new : String
  form_signature_prev : String
  form_signature_new : String
  resolved_url_prev : String
  resolved_url_new : String
  details : String
deriving DecidableEq

/-- Embedding of `_log_change_event`'s row construction; `nowIso` stands for
`utc_now_iso()`, used only when the capture carries no timestamp. -/
def mkEvent (previous current : Payload) (change_types : List String)
    (nowIso : String) : EventRow :=
  ⟨(if current.captured_at = "" then nowIso else current.captured_at),
   current.site_id, "CHANGE", joinSep "," change_types,
   previous.dom_checksum.getD "", current.dom_checksum.getD "",
   previous.form_signature.getD "", current.form_signature.getD "",
   previous.resolved_url.getD "", current.resolved_url.getD "",
   joinSep "; " (sortStrings change_types)⟩

/-- A master-index row, mirroring `MASTER_HEADERS`. -/
structure MasterRow where
  site_id : String
  homepage : String
  submission_url : String
  notes : String
  target_url : String
  resolved_url : String
  last_mode : String
  last_captured_at : String
  status : String
  last_error : String
  dom_checksum : String
  form_signature : String
  form_count : Nat
  field_count : Nat
  has_captcha : Bool
  likely_multi_step : Bool
  map_json : String
  map_html : String
  screenshot : String
  captured_with : String
deriving DecidableEq

/-- The row built by `_record_master_index` from a capture payload, with the
source's falsy-value defaults. -/
def mkMasterRow (capture : Payload) : MasterRow :=
  ⟨capture.site_id, capture.homepage, capture.submission_url.getD "", capture.notes,
   capture.target_url.getD "", capture.resolved_url.getD "", capture.mode,
   capture.captured_at, (if capture.status = "" then "error" else capture.status),
   capture.error.getD "", capture.dom_checksum.getD "", capture.form_signature.getD "",
   capture.form_count, capture.field_count, capture.has_captcha, capture.likely_multi_step,
   capture.artifacts.map_json, capture.artifacts.map_html, capture.artifacts.screenshot,
   TOOL_VERSION⟩

/-- Row predicate for the pandas mask `df["site_id"] == row["site_id"]`. -/
def sameSite (s : String) (r : MasterRow) : Bool := decide (r.site_id = s)

/-- The masked assignment `df.loc[mask, MASTER_HEADERS] = row`: every matching
row is overwritten with the new row. -/
def replaceRows (rows : List MasterRow) (row : MasterRow) : List MasterRow :=
  rows.map fun r => if r.site_id = row.site_id then row else r

/-- Embedding of the upsert in `_record_master_index`: overwrite the matching
rows in place when the mask hits, otherwise append at the end. -/
def upsertMasterRow (rows : List MasterRow) (row : MasterRow) : List MasterRow :=
  if rows.any (sameSite row.site_id) then replaceRows rows row else rows ++ [row]

/-! ## Per-target orchestration (`_process_single_target`) -/

/-- The observable per-target state: the saved `map.json` snapshot, the master
index table, and the append-only change log. -/
structure StepState where
  savedSnapshot : Option Payload
  master : List MasterRow
  events : List EventRow
deriving DecidableEq

/-- Embedding of `_process_single_target` after the capture: write `map.json`,
upsert the master index, and then — in monitor mode with a prior map present —
run `compare_maps` and append a change event when anything changed.  The
`previous` argument is the result of `_load_existing_map` (with `none` both for
a missing and for an unparsable prior map). -/
def process_single_target (mode : String) (previous : Option Payload) (capture : Payload)
    (nowIso : String) (st : StepState) : StepState :=
  let st1 : StepState :=
    ⟨some capture, upsertMasterRow st.master (mkMasterRow capture), st.events⟩
  match previous with
  | some prev =>
    if mode = "monitor" then
      let diff := compare_maps prev capture
      if diff.changed then
        { st1 with events := st1.events ++ [mkEvent prev capture diff.change_types nowIso] }
      else st1
    else st1
  | none => st1

/-- Filtering after a masked overwrite: matching rows all become the new row,
rows for other sites are untouched. -/
theorem filter_replaceRows : ∀ (rows : List MasterRow) (row : MasterRow) (s : String),
    (replaceRows rows row).filter (sameSite s) =
      if row.site_id = s then
        List.replicate ((rows.filter (sameSite row.site_id)).length) row
      else rows.filter (sameSite s) := by
  intro rows row s
  induction rows with
  | nil =>
    by_cases h : row.site_id = s
    · simp [replaceRows, h]
    · simp [replaceRows, h]
  | cons r rest ih =>
    unfold replaceRows at ih ⊢
    rw [List.map_cons]
    by_cases hm : r.site_id = row.site_id
    · rw [if_pos hm]
      by_cases hs : row.site_id = s
      · rw [if_pos hs] at ih ⊢
        have hr : sameSite s row = true := by simp [sameSite, hs]
        have hr2 : sameSite row.site_id r = true := by simp [sameSite, hm]
        simp only [List.filter_cons, hr, hr2, if_pos, List.length_cons, List.replicate_succ]
        rw [ih]
      · rw [if_neg hs] at ih ⊢
        have hr : sameSite s row = false := by simp [sameSite, hs]
        have hr2 : sameSite s r = false := by
          simp only [sameSite, decide_eq_false_iff_not]
          rw [hm]
          exact hs
        simp only [List.filter_cons, hr, hr2]
        rw [ih]
        simp
    · rw [if_neg hm]
      by_cases hs : row.site_id = s
      · rw [if_pos hs] at ih ⊢
        have hr2 : sameSite row.site_id r = false := by
          simp only [sameSite, decide_eq_false_iff_not]
          exact hm
        have hr3 : sameSite s r = false := by
          simp only [sameSite, decide_eq_false_iff_not]
          rw [← hs]
          exact hm
        simp only [List.filter_cons, hr2, hr3]
        rw [ih]
        simp
      · rw [if_neg hs] at ih ⊢
        simp only [List.filter_cons]
        by_cases hrs : r.site_id = s
        · have hr : sameSite s r = true := by simp [sameSite, hrs]
          simp only [hr, if_pos]
          rw [ih]
        · have hr : sameSite s r = false := by simp [sameSite, hrs]
          simp only [hr]
          rw [ih]

/-- One upsert step on a table with at most one row per site: the new site's
rows collapse to exactly the new row, other sites are untouched. -/
theorem filter_upsert (acc : List MasterRow) (row : MasterRow) (s : String)
    (hinv : ∀ s', (acc.filter (sameSite s')).length ≤ 1) :
    (upsertMasterRow acc row).filter (sameSite s) =
      if row.site_id = s then [row] else acc.filter (sameSite s) := by
  unfold upsertMasterRow
  by_cases hany : acc.any (sameSite row.site_id) = true
  · rw [if_pos hany, filter_replaceRows]
    by_cases hs : row.site_id = s
    · rw [if_pos hs, if_pos hs]
      obtain ⟨r, hr, hpr⟩ := List.any_eq_true.mp hany
      have hmem : r ∈ acc.filter (sameSite row.site_id) := List.mem_filter.mpr ⟨hr, hpr⟩
      have hlen1 : 1 ≤ (acc.filter (sameSite row.site_id)).length :=
        List.length_pos.mpr (List.ne_nil_of_mem hmem)
      have hone : (acc.filter (sameSite row.site_id)).length = 1 :=
        le_antisymm (hinv row.site_id) hlen1
      rw [hone]
      rfl
    · rw [if_neg hs, if_neg hs]
  · rw [if_neg hany, List.filter_append]
    by_cases hs : row.site_id = s
    · rw [if_pos hs]
      have hnil : acc.filter (sameSite s) = [] := by
        rw [List.filter_eq_nil_iff]
        intro a ha hpa
        apply hany
        refine List.any_eq_true.mpr ⟨a, ha, ?_⟩
        simp only [sameSite, decide_eq_true_eq] at hpa ⊢
        exact hpa.trans hs.symm
      rw [hnil]
      have hone : List.filter (sameSite s) [row] = [row] := by
        simp [List.filter_cons, sameSite, hs]
      rw [hone]
      rfl
    · rw [if_neg hs]
      have hzero : List.filter (sameSite s) [row] = [] := by
        simp [List.filter_cons, sameSite, hs]
      rw [hzero, List.append_nil]

/-- Upserting preserves the at-most-one-row-per-site invariant. -/
theorem upsert_inv (acc : List MasterRow) (row : MasterRow)
    (hinv : ∀ s', (acc.filter (sameSite s')).length ≤ 1) :
    ∀ s', ((upsertMasterRow acc row).filter (sameSite s')).length ≤ 1 := by
  intro s'
  rw [filter_upsert acc row s' hinv]
  by_cases hs : row.site_id = s'
  · rw [if_pos hs]; simp
  · rw [if_neg hs]; exact hinv s'

/-- Folding upserts over a capture sequence: for every site the table ends up
with exactly the row of the last capture for that site, or the initial rows
when the site was never captured. -/
theorem foldl_upsert_filter : ∀ (caps : List MasterRow) (acc : List MasterRow),
    (∀ s', (acc.filter (sameSite s')).length ≤ 1) →
    ∀ s, (caps.foldl upsertMasterRow acc).filter (sameSite s) =
      match (caps.filter (sameSite s)).getLast? with
      | none => acc.filter (sameSite s)
      | some r => [r] := by
  intro caps
  induction caps with
  | nil => intro acc hinv s; rfl
  | cons row caps ih =>
    intro acc hinv s
    rw [List.foldl_cons, ih (upsertMasterRow acc row) (upsert_inv acc row hinv) s]
    have hstep := filter_upsert acc row s hinv
    by_cases hs : row.site_id = s
    · have hf : List.filter (sameSite s) (row :: caps) = row :: List.filter (sameSite s) caps := by
        simp [List.filter_cons, sameSite, hs]
      rw [hf]
      cases hfc : List.filter (sameSite s) caps with
      | nil =>
        show (upsertMasterRow acc row).filter (sameSite s) = [row]
        rw [hstep, if_pos hs]
      | cons x xs =>
        rw [List.getLast?_cons_cons]
        cases hxl : (x :: xs).getLast? with
        | none => simp at hxl
        | some r => rfl
    · have hf : List.filter (sameSite s) (row :: caps) = List.filter (sameSite s) caps := by
        simp [List.filter_cons, sameSite, hs]
      rw [hf]
      cases hfc : List.filter (sameSite s) caps with
      | nil =>
        show (upsertMasterRow acc row).filter (sameSite s) = acc.filter (sameSite s)
        rw [hstep, if_neg hs]
      | cons x xs => rfl

/-- C6: starting from an empty master index, after any sequence of captures the
index holds, for every site id, exactly one row — the row derived from the most
recent capture of that site (and no row when the site was never captured); and
capturing the same site id twice in sequence leaves exactly the one row built
from the second capture. -/
theorem claim_C6_master_index_unique :
    (∀ (captures : List Payload) (s : String),
        ((captures.map mkMasterRow).foldl upsertMasterRow []).filter (sameSite s) =
          match (captures.filter fun c => decide (c.site_id = s)).getLast? with
          | none => []
          | some c => [mkMasterRow c]) ∧
    (∀ c₁ c₂ : Payload, c₁.site_id = c₂.site_id →
        ([c₁, c₂].map mkMasterRow).foldl upsertMasterRow [] = [mkMasterRow c₂]) := by
  constructor
  · intro captures s
    rw [foldl_upsert_filter _ [] (by intro s'; simp) s]
    rw [List.filter_map]
    have hcomp : (sameSite s ∘ mkMasterRow) = (fun c : Payload => decide (c.site_id = s)) := rfl
    rw [hcomp, List.getLast?_map]
    cases (captures.filter fun c : Payload => decide (c.site_id = s)).getLast? with
    | none => rfl
    | some c => rfl
  · intro c₁ c₂ h
    have hsite : (mkMasterRow c₁).site_id = (mkMasterRow c₂).site_id := h
    simp [upsertMasterRow, replaceRows, sameSite, List.any_cons, hsite]

/-- Witness for C6: two concrete captures of the same site id leave exactly one
row, built from the second capture. -/
theorem claim_C6_master_index_unique_witness :
    (mkSnap none false).site_id = (mkSnap (some "https://a.test") true).site_id ∧
    (([mkSnap none false, mkSnap (some "https://a.test") true].map mkMasterRow).foldl
        upsertMasterRow []) = [mkMasterRow (mkSnap (some "https://a.test") true)] :=
  ⟨rfl, claim_C6_master_index_unique.2 _ _ rfl⟩

/-- The step always saves the capture as the new snapshot. -/
theorem process_savedSnapshot (mode : String) (previous : Option Payload) (capture : Payload)
    (nowIso : String) (st : StepState) :
    (process_single_target mode previous capture nowIso st).savedSnapshot = some capture := by
  unfold process_single_target
  cases previous with
  | none => rfl
  | some prev =>
    dsimp only
    by_cases hm : mode = "monitor"
    · rw [if_pos hm]
      by_cases hc : (compare_maps prev capture).changed = true
      · simp [hc]
      · simp [hc]
    · rw [if_neg hm]

/-- The step always upserts the master index with the capture's row. -/
theorem process_master (mode : String) (previous : Option Payload) (capture : Payload)
    (nowIso : String) (st : StepState) :
    (process_single_target mode previous capture nowIso st).master =
      upsertMasterRow st.master (mkMasterRow capture) := by
  unfold process_single_target
  cases previous with
  | none => rfl
  | some prev =>
    dsimp only
    by_cases hm : mode = "monitor"
    · rw [if_pos hm]
      by_cases hc : (compare_maps prev capture).changed = true
      · simp [hc]
      · simp [hc]
    · rw [if_neg hm]

/-- The change log after the step: an event is appended exactly in monitor mode
with a prior map present and a changed diff. -/
theorem process_events (mode : String) (previous : Option Payload) (capture : Payload)
    (nowIso : String) (st : StepState) :
    (process_single_target mode previous capture nowIso st).events =
      match previous with
      | some prev =>
        if mode = "monitor" ∧ (compare_maps prev capture).changed = true
        then st.events ++ [mkEvent prev capture (compare_maps prev capture).change_types nowIso]
        else st.events
      | none => st.events := by
  unfold process_single_target
  cases previous with
  | none => rfl
  | some prev =>
    dsimp only
    by_cases hm : mode = "monitor"
    · rw [if_pos hm]
      by_cases hc : (compare_maps prev capture).changed = true
      · simp [hc, hm]
      · simp [hc, hm]
    · rw [if_neg hm]
      simp [hm]

/-- The diff reports a change exactly when one of the five tracked comparisons
mismatches (with the `resolved_url` comparison on normalized values). -/
theorem compare_changed_iff (p c : Payload) :
    (compare_maps p c).changed = true ↔
      (p.dom_checksum ≠ c.dom_checksum ∨ p.form_signature ≠ c.form_signature ∨
       p.has_captcha ≠ c.has_captcha ∨ p.likely_multi_step ≠ c.likely_multi_step ∨
       p.resolved_url.getD "" ≠ c.resolved_url.getD "") := by
  by_cases h1 : p.dom_checksum = c.dom_checksum <;>
  by_cases h2 : p.form_signature = c.form_signature <;>
  by_cases h3 : p.has_captcha = c.has_captcha <;>
  by_cases h4 : p.likely_multi_step = c.likely_multi_step <;>
  by_cases h5 : p.resolved_url.getD "" = c.resolved_url.getD "" <;>
  simp [compare_maps, h1, h2, h3, h4, h5]

/-- A concrete target whose capture will fail. -/
def cexTarget : Target := ⟨"site-a", "https://a.test", none, "", "Site A"⟩

/-- A concrete failed capture outcome: a navigation timeout before resolution. -/
def cexOutcome : CaptureOutcome := CaptureOutcome.navTimeout none none "timeout"

/-- Counterexample to C2 as stated: a target whose capture times out while a
prior baseline snapshot exists.  The error snapshot is recorded and the index
upserted, but the code still runs `compare_maps` against the baseline and
appends a ChangeEvent — the claim says no comparison runs and no event is
appended. -/
theorem claim_C2_counterexample :
    cexOutcome.isFailure = true ∧
    (capture_target cexTarget "t1" "monitor" cexOutcome 100).status = "error" ∧
    (process_single_target "monitor" (some (mkSnap (some "https://a.test") false))
        (capture_target cexTarget "t1" "monitor" cexOutcome 100) "t1"
        ⟨none, [], []⟩).events ≠ [] := by
  decide

/-- C2 (amended): for every target whose capture fails, the run records a
snapshot with status `error` and performs the master-index upsert; the change
log is untouched outside monitor mode or without a baseline, but in monitor
mode with a baseline whose diff reports a change the run still appends a
ChangeEvent for the errored target. -/
theorem claim_C2_error_capture :
    ∀ (t : Target) (timestamp mode nowIso : String) (oc : CaptureOutcome) (d : Int)
      (previous : Option Payload) (st : StepState),
      oc.isFailure = true →
      ((capture_target t timestamp mode oc d).status = "error" ∧
       (process_single_target mode previous (capture_target t timestamp mode oc d) nowIso
          st).savedSnapshot = some (capture_target t timestamp mode oc d) ∧
       (process_single_target mode previous (capture_target t timestamp mode oc d) nowIso
          st).master =
         upsertMasterRow st.master (mkMasterRow (capture_target t timestamp mode oc d)) ∧
       ((mode ≠ "monitor" ∨ previous = none) →
         (process_single_target mode previous (capture_target t timestamp mode oc d) nowIso
            st).events = st.events) ∧
       (∀ prev, previous = some prev → mode = "monitor" →
          (compare_maps prev (capture_target t timestamp mode oc d)).changed = true →
          (process_single_target mode previous (capture_target t timestamp mode oc d) nowIso
             st).events = st.events ++
            [mkEvent prev (capture_target t timestamp mode oc d)
              (compare_maps prev (capture_target t timestamp mode oc d)).change_types nowIso])) := by
  intro t timestamp mode nowIso oc d previous st hfail
  have hstatus : (capture_target t timestamp mode oc d).status = "error" := by
    cases hurl : t.target_url with
    | none => simp [capture_target, hurl, initPayload]
    | some u =>
      cases oc with
      | success resolvedUrl statusCode html forms hasCaptcha =>
        simp [CaptureOutcome.isFailure] at hfail
      | navTimeout resolvedUrl statusCode msg => simp [capture_target, hurl, initPayload]
      | playwrightError resolvedUrl statusCode msg => simp [capture_target, hurl, initPayload]
      | unexpectedError resolvedUrl statusCode msg => simp [capture_target, hurl, initPayload]
  refine ⟨hstatus, process_savedSnapshot _ _ _ _ _, process_master _ _ _ _ _, ?_, ?_⟩
  · intro hcase
    rw [process_events]
    cases previous with
    | none => rfl
    | some prev =>
      dsimp only
      rcases hcase with hm | hnone
      · rw [if_neg (fun hand => hm hand.1)]
      · exact absurd hnone (by simp)
  · intro prev hprev hm hc
    subst hprev
    rw [process_events]
    dsimp only
    rw [if_pos ⟨hm, hc⟩]

/-- Witness for C2 (amended): at the concrete timed-out target with no prior
baseline, the capture has status `error`, the snapshot is saved, and the change
log stays empty. -/
theorem claim_C2_error_capture_witness :
    cexOutcome.isFailure = true ∧
    (capture_target cexTarget "t1" "map" cexOutcome 100).status = "error" ∧
    (process_single_target "map" none (capture_target cexTarget "t1" "map" cexOutcome 100)
        "t1" ⟨none, [], []⟩).events = [] :=
  ⟨rfl,
   (claim_C2_error_capture cexTarget "t1" "map" "t1" cexOutcome 100 none
     ⟨none, [], []⟩ rfl).1,
   (claim_C2_error_capture cexTarget "t1" "map" "t1" cexOutcome 100 none
     ⟨none, [], []⟩ rfl).2.2.2.1 (Or.inr rfl)⟩

/-- C7: with no prior snapshot for a site, a capture never appends a
ChangeEvent — it only saves the snapshot as the new baseline; and whenever an
event is appended, a prior snapshot existed, the run was in monitor mode, and
at least one tracked field differs between the prior snapshot and the capture. -/
theorem claim_C7_no_baseline_no_event :
    (∀ (mode nowIso : String) (capture : Payload) (st : StepState),
        (process_single_target mode none capture nowIso st).events = st.events ∧
        (process_single_target mode none capture nowIso st).savedSnapshot = some capture) ∧
    (∀ (mode nowIso : String) (previous : Option Payload) (capture : Payload) (st : StepState),
        (process_single_target mode previous capture nowIso st).events ≠ st.events →
        ∃ prev, previous = some prev ∧ mode = "monitor" ∧
          (prev.dom_checksum ≠ capture.dom_checksum ∨
           prev.form_signature ≠ capture.form_signature ∨
           prev.has_captcha ≠ capture.has_captcha ∨
           prev.likely_multi_step ≠ capture.likely_multi_step ∨
           prev.resolved_url ≠ capture.resolved_url)) := by
  constructor
  · intro mode nowIso capture st
    exact ⟨by rw [process_events], process_savedSnapshot _ _ _ _ _⟩
  · intro mode nowIso previous capture st hne
    rw [process_events] at hne
    cases previous with
    | none => exact absurd rfl hne
    | some prev =>
      dsimp only at hne
      by_cases hcond : mode = "monitor" ∧ (compare_maps prev capture).changed = true
      · refine ⟨prev, rfl, hcond.1, ?_⟩
        rcases (compare_changed_iff prev capture).mp hcond.2 with h | h | h | h | h
        · exact Or.inl h
        · exact Or.inr (Or.inl h)
        · exact Or.inr (Or.inr (Or.inl h))
        · exact Or.inr (Or.inr (Or.inr (Or.inl h)))
        · refine Or.inr (Or.inr (Or.inr (Or.inr ?_)))
          intro hc
          exact h (by rw [hc])
      · rw [if_neg hcond] at hne
        exact absurd rfl hne

/-- Witness for C7: a concrete monitor-mode step over a baseline whose captcha
flag flipped appends an event, and the theorem recovers the differing field. -/
theorem claim_C7_no_baseline_no_event_witness :
    (process_single_target "monitor" (some (mkSnap (some "https://a.test") false))
        (mkSnap (some "https://a.test") true) "t1" ⟨none, [], []⟩).events ≠ [] ∧
    (∃ prev, (some (mkSnap (some "https://a.test") false) : Option Payload) = some prev ∧
      ("monitor" : String) = "monitor" ∧
      (prev.dom_checksum ≠ (mkSnap (some "https://a.test") true).dom_checksum ∨
       prev.form_signature ≠ (mkSnap (some "https://a.test") true).form_signature ∨
       prev.has_captcha ≠ (mkSnap (some "https://a.test") true).has_captcha ∨
       prev.likely_multi_step ≠ (mkSnap (some "https://a.test") true).likely_multi_step ∨
       prev.resolved_url ≠ (mkSnap (some "https://a.test") true).resolved_url)) :=
  ⟨by decide,
   claim_C7_no_baseline_no_event.2 "monitor" "t1"
     (some (mkSnap (some "https://a.test") false)) (mkSnap (some "https://a.test") true)
     ⟨none, [], []⟩ (by decide)⟩

/-! ## Selector synthesis (`toSelector` in `FORM_EXTRACTION_SCRIPT`) -/

/-- A DOM element: node name, `id` attribute (empty when absent), class list,
and children in document order.  An element is addressed by the list of child
indices from the document root, which is how object identity manifests in the
tree. -/
inductive Dom where
  | node (tag : String) (idAttr : String) (classes : List String) (children : List Dom)

/-- The node name of an element. -/
def Dom.tag : Dom → String
  | .node t _ _ _ => t

/-- The `id` attribute of an element (empty string when absent or falsy). -/
def Dom.idAttr : Dom → String
  | .node _ i _ _ => i

/-- The class list of an element. -/
def Dom.classes : Dom → List String
  | .node _ _ c _ => c

/-- The children of an element, in document order. -/
def Dom.children : Dom → List Dom
  | .node _ _ _ ch => ch

/-- Resolve a child-index path from an element. -/
def getAt : Dom → List Nat → Option Dom
  | d, [] => some d
  | d, i :: rest =>
    match d.children[i]? with
    | some c => getAt c rest
    | none => none

/-- The base selector part of one element: lowercased node name plus the
joined class list when non-empty. -/
def selectorPart (d : Dom) : String :=
  pyLowerStr d.tag ++ (if d.classes.isEmpty then "" else "." ++ joinSep "." d.classes)

/-- The `:nth-of-type(...)` disambiguation for the child at index `i` of
`parent`: present exactly when more than one same-tag sibling exists, carrying
the element's 1-based position among those siblings. -/
def nthSuffix (parent : Dom) (i : Nat) (c : Dom) : String :=
  if ((parent.children.filter fun x => x.tag == c.tag).length > 1) then
    ":nth-of-type(" ++
      natDec (((parent.children.take i).filter fun x => x.tag == c.tag).length + 1) ++ ")"
  else ""

/-- Embedding of the `while` loop of `toSelector`: the loop walks from the
element up through `parentElement`, prepending one part per node, which yields
the root-to-element chain; this builds that chain along the element's path.
The nth-of-type disambiguation is applied exactly under the loop's guards: the
node is not the element itself (`current !== el`) and has a parent element (the
document root has none). -/
def chainFrom : Dom → List Nat → Option (List String)
  | _, [] => some []
  | d, i :: rest =>
    match d.children[i]? with
    | none => none
    | some c =>
      let part := if rest.isEmpty then selectorPart c else selectorPart c ++ nthSuffix d i c
      match chainFrom c rest with
      | none => none
      | some parts => some (part :: parts)

/-- Embedding of `toSelector`: short-circuit to `tag#id` when the element has
an id, otherwise join the root-to-element chain with the child combinator. -/
def toSelector (root : Dom) (path : List Nat) : Option String :=
  match getAt root path with
  | none => none
  | some el =>
    if el.idAttr ≠ "" then some (pyLowerStr el.tag ++ "#" ++ el.idAttr)
    else
      match chainFrom root path with
      | none => none
      | some parts => some (joinSep " > " (selectorPart root :: parts))

/-- The specification-side description of the selector: one part per chain
depth, where the part of the node at depth `k` is its tag-plus-classes part,
further disambiguated with a same-tag sibling index only when the node is a
proper ancestor strictly below the root and more than one same-tag sibling
exists (the suffix is empty otherwise). -/
def partAt (root : Dom) (path : List Nat) (k : Nat) : String :=
  match getAt root (path.take k) with
  | none => ""
  | some d =>
    if k = 0 ∨ k = path.length then selectorPart d
    else
      match getAt root (path.take (k - 1)) with
      | none => selectorPart d
      | some parent => selectorPart d ++ nthSuffix parent (path.getD (k - 1) 0) d

/-- The specification-side selector: the chain from the document root to the
element, one part per depth, joined with the child combinator. -/
def specSelector (root : Dom) (path : List Nat) : String :=
  joinSep " > " ((List.range (path.length + 1)).map (partAt root path))

/-- Path resolution composes over path concatenation. -/
theorem getAt_append : ∀ (a b : List Nat) (d : Dom),
    getAt d (a ++ b) = match getAt d a with
      | some m => getAt m b
      | none => none := by
  intro a
  induction a with
  | nil => intro b d; rfl
  | cons i a ih =>
    intro b d
    show (match d.children[i]? with
      | some c => getAt c (a ++ b)
      | none => none) = _
    cases hc : d.children[i]? with
    | none => simp only [getAt, hc]
    | some c =>
      simp only [getAt, hc]
      exact ih b c

/-- Reading the element right after a prefix of the path. -/
theorem getD_append_cons : ∀ (pre : List Nat) (i : Nat) (rest : List Nat),
    (pre ++ i :: rest).getD pre.length 0 = i := by
  intro pre
  induction pre with
  | nil => intro i rest; rfl
  | cons p pre ih => intro i rest; exact ih i rest

/-- Taking one element past a prefix of the path. -/
theorem take_append_cons : ∀ (pre : List Nat) (i : Nat) (rest : List Nat),
    (pre ++ i :: rest).take (pre.length + 1) = pre ++ [i] := by
  intro pre
  induction pre with
  | nil => intro i rest; rfl
  | cons p pre ih =>
    intro i rest
    show p :: (pre ++ i :: rest).take (pre.length + 1) = p :: (pre ++ [i])
    rw [ih i rest]

/-- Taking exactly a prefix of the path. -/
theorem take_append_self : ∀ (pre rest : List Nat), (pre ++ rest).take pre.length = pre := by
  intro pre
  induction pre with
  | nil => intro rest; rfl
  | cons p pre ih =>
    intro rest
    show p :: (pre ++ rest).take pre.length = p :: pre
    rw [ih rest]

/-- The chain is total wherever the path resolves. -/
theorem chainFrom_total : ∀ (path : List Nat) (d el : Dom), getAt d path = some el →
    ∃ parts, chainFrom d path = some parts := by
  intro path
  induction path with
  | nil => intro d el _; exact ⟨[], rfl⟩
  | cons i rest ih =>
    intro d el hget
    rw [getAt] at hget
    cases hc : d.children[i]? with
    | none => rw [hc] at hget; simp at hget
    | some c =>
      rw [hc] at hget
      dsimp only at hget
      obtain ⟨parts2, hp2⟩ := ih c el hget
      refine ⟨(if rest.isEmpty then selectorPart c else selectorPart c ++ nthSuffix d i c)
        :: parts2, ?_⟩
      rw [chainFrom, hc]
      dsimp only
      rw [hp2]

/-- The chain built by the loop embedding equals, partwise, the
specification-side per-depth parts. -/
theorem chainFrom_eq_parts : ∀ (rest pre : List Nat) (root d : Dom),
    getAt root pre = some d →
    ∀ parts, chainFrom d rest = some parts →
    parts = (List.range' (pre.length + 1) rest.length).map (partAt root (pre ++ rest)) := by
  intro rest
  induction rest with
  | nil =>
    intro pre root d hget parts hchain
    rw [chainFrom] at hchain
    simp only [Option.some.injEq] at hchain
    rw [← hchain]
    rfl
  | cons i rest2 ih =>
    intro pre root d hget parts hchain
    rw [chainFrom] at hchain
    cases hc : d.children[i]? with
    | none => rw [hc] at hchain; simp at hchain
    | some c =>
      rw [hc] at hchain
      dsimp only at hchain
      cases hcf : chainFrom c rest2 with
      | none => rw [hcf] at hchain; simp at hchain
      | some parts2 =>
        rw [hcf] at hchain
        simp only [Option.some.injEq] at hchain
        have hgc : getAt root (pre ++ [i]) = some c := by
          rw [getAt_append, hget]
          show getAt d [i] = some c
          rw [getAt, hc]
          rfl
        have htail := ih (pre ++ [i]) root c hgc parts2 hcf
        have hlen : (pre ++ [i]).length = pre.length + 1 := by simp
        rw [hlen] at htail
        have hassoc : (pre ++ [i]) ++ rest2 = pre ++ i :: rest2 := by simp
        rw [hassoc] at htail
        have hhead : partAt root (pre ++ i :: rest2) (pre.length + 1) =
            (if rest2.isEmpty then selectorPart c else selectorPart c ++ nthSuffix d i c) := by
          unfold partAt
          rw [take_append_cons, hgc]
          dsimp only
          cases rest2 with
          | nil =>
            rw [if_pos (Or.inr (by simp))]
            rfl
          | cons j rest3 =>
            have hkn : ¬(pre.length + 1 = 0 ∨
                pre.length + 1 = (pre ++ i :: j :: rest3).length) := by
              rintro (h | h)
              · omega
              · rw [List.length_append, List.length_cons, List.length_cons] at h
                omega
            rw [if_neg hkn]
            have hsub : pre.length + 1 - 1 = pre.length := by omega
            rw [hsub, take_append_self, hget, getD_append_cons]
            rfl
        rw [← hchain, List.length_cons]
        have hrange : List.range' (pre.length + 1) (rest2.length + 1) =
            (pre.length + 1) :: List.range' (pre.length + 2) rest2.length := rfl
        rw [hrange, List.map_cons, hhead, htail]

/-- The loop-built selector equals the specification-side per-depth selector. -/
theorem toSelector_eq_spec (root : Dom) (path : List Nat) (el : Dom)
    (hget : getAt root path = some el) (hid : el.idAttr = "") :
    toSelector root path = some (specSelector root path) := by
  unfold toSelector
  rw [hget]
  dsimp only
  rw [if_neg (by simp [hid])]
  obtain ⟨parts, hparts⟩ := chainFrom_total path root el hget
  rw [hparts]
  dsimp only
  congr 1
  unfold specSelector
  have h0 : (List.range (path.length + 1)).map (partAt root path) =
      partAt root path 0 :: (List.range' 1 path.length).map (partAt root path) := by
    rw [List.range_eq_range']
    rfl
  rw [h0]
  have hroot : partAt root path 0 = selectorPart root := by
    unfold partAt
    show (match some root with
      | none => ""
      | some d => if 0 = 0 ∨ 0 = path.length then selectorPart d
        else match getAt root ((List.take (0 - 1) path)) with
          | none => selectorPart d
          | some parent => selectorPart d ++ nthSuffix parent (path.getD (0 - 1) 0) d)
        = selectorPart root
    dsimp only
    rw [if_pos (Or.inl rfl)]
  rw [hroot]
  have hchain := chainFrom_eq_parts path [] root root rfl parts hparts
  simp only [List.length_nil, List.nil_append, Nat.zero_add] at hchain
  rw [hchain]

/-- C9: for every element of the DOM tree, the synthesized selector is
`tag#id` whenever the element has an id — short-circuiting, so it does not
depend on the ancestors at all; otherwise it is the chain from the document
root to the element where each part is the lowercased tag name plus its joined
class list, with a same-tag position index among siblings appended only for
proper ancestors below the root with more than one same-tag sibling.
Determinism over an unchanged document is inherent: the embedding is a pure
function of the tree and the element's position alone. -/
theorem claim_C9_selector_synthesis :
    (∀ (root : Dom) (path : List Nat) (el : Dom), getAt root path = some el →
        el.idAttr ≠ "" →
        toSelector root path = some (pyLowerStr el.tag ++ "#" ++ el.idAttr)) ∧
    (∀ (root₁ root₂ : Dom) (path₁ path₂ : List Nat) (el : Dom),
        getAt root₁ path₁ = some el → getAt root₂ path₂ = some el → el.idAttr ≠ "" →
        toSelector root₁ path₁ = toSelector root₂ path₂) ∧
    (∀ (root : Dom) (path : List Nat) (el : Dom), getAt root path = some el →
        el.idAttr = "" → toSelector root path = some (specSelector root path)) ∧
    (∀ (parent : Dom) (i : Nat) (c : Dom),
        ((parent.children.filter fun x => x.tag == c.tag).length ≤ 1) →
        nthSuffix parent i c = "") := by
  have hshort : ∀ (root : Dom) (path : List Nat) (el : Dom), getAt root path = some el →
      el.idAttr ≠ "" → toSelector root path = some (pyLowerStr el.tag ++ "#" ++ el.idAttr) := by
    intro root path el hget hid
    unfold toSelector
    rw [hget]
    dsimp only
    rw [if_pos hid]
  refine ⟨hshort, ?_, fun root path el hget hid => toSelector_eq_spec root path el hget hid, ?_⟩
  · intro root₁ root₂ path₁ path₂ el h1 h2 hid
    rw [hshort root₁ path₁ el h1 hid, hshort root₂ path₂ el h2 hid]
  · intro parent i c hle
    unfold nthSuffix
    rw [if_neg (by omega)]

/-- A concrete button with an id, used to witness the short-circuit branch. -/
def exButton₁ : Dom := Dom.node "BUTTON" "go" ["btn"] []

/-- A concrete button without an id but with classes. -/
def exButton₂ : Dom := Dom.node "BUTTON" "" ["btn", "primary"] []

/-- A concrete document: two sibling divs under the body, the second holding
the id-less button. -/
def exRoot : Dom :=
  Dom.node "HTML" "" []
    [Dom.node "BODY" "" []
      [Dom.node "DIV" "" ["a"] [exButton₁],
       Dom.node "DIV" "" [] [exButton₂]]]

/-- Witness for C9: in the concrete document, the id-carrying button resolves
to `button#go` regardless of its ancestors, and the id-less button resolves to
the root-to-element chain with the nth-of-type disambiguation exactly on the
ambiguous div. -/
theorem claim_C9_selector_synthesis_witness :
    getAt exRoot [0, 0, 0] = some exButton₁ ∧ exButton₁.idAttr ≠ "" ∧
    toSelector exRoot [0, 0, 0] = some "button#go" ∧
    getAt exRoot [0, 1, 0] = some exButton₂ ∧ exButton₂.idAttr = "" ∧
    toSelector exRoot [0, 1, 0] = some (specSelector exRoot [0, 1, 0]) ∧
    specSelector exRoot [0, 1, 0] = "html > body > div:nth-of-type(2) > button.btn.primary" :=
  ⟨rfl, by decide,
   claim_C9_selector_synthesis.1 exRoot [0, 0, 0] exButton₁ rfl (by decide),
   rfl, rfl,
   claim_C9_selector_synthesis.2.2.1 exRoot [0, 1, 0] exButton₂ rfl rfl,
   by decide⟩
